import Mathlib

/-!
Verification of the `array2D` / `multi_array2D` templates of
`src/rtengine/array2D.h` (RawTherapee).

The C++ class is embedded shallowly: raw memory is an explicit heap mapping
allocation identifiers to element buffers (for `T*` allocations) and to
row-pointer tables (for `T**` allocations).  A pointer is an allocation id
together with an element offset, so pointer identity of the flat view is
allocation-id equality, `delete[]` removes a block from the heap, and a
dereference of a dangling or null pointer is an `Option.none` outcome.
-/

set_option autoImplicit false

namespace ArrSpec

/-- A `T*` pointer: an allocation id plus an element offset into that block. -/
structure Ptr where
  block : Nat
  off : Nat
  deriving DecidableEq, Repr

instance : Inhabited Ptr := ⟨⟨0, 0⟩⟩

/-- The heap: `dataMem` holds the `T[]` allocations (element buffers),
`rowMem` the `T*[]` allocations (row-pointer tables).  `nextId` is the next
fresh allocation identifier. -/
structure Heap (α : Type) where
  nextId : Nat
  dataMem : Nat → Option (List α)
  rowMem : Nat → Option (List Ptr)

variable {α : Type}

/-- The empty heap. -/
def Heap.empty : Heap α := ⟨0, fun _ => none, fun _ => none⟩

/-- Overwrite (or delete, with `none`) the element buffer of block `id`. -/
def Heap.setData (hp : Heap α) (id : Nat) (buf : Option (List α)) : Heap α :=
  { hp with dataMem := fun j => if j = id then buf else hp.dataMem j }

/-- Overwrite (or delete, with `none`) the row table of block `id`. -/
def Heap.setRows (hp : Heap α) (id : Nat) (tab : Option (List Ptr)) : Heap α :=
  { hp with rowMem := fun j => if j = id then tab else hp.rowMem j }

/-- `new T[n]`-style allocation of an element buffer with the given contents;
returns the fresh id and the grown heap. -/
def Heap.allocData (hp : Heap α) (buf : List α) : Nat × Heap α :=
  (hp.nextId,
   { nextId := hp.nextId + 1
     dataMem := fun j => if j = hp.nextId then some buf else hp.dataMem j
     rowMem := hp.rowMem })

/-- `new T*[n]`-style allocation of a row-pointer table. -/
def Heap.allocRows (hp : Heap α) (tab : List Ptr) : Nat × Heap α :=
  (hp.nextId,
   { nextId := hp.nextId + 1
     dataMem := hp.dataMem
     rowMem := fun j => if j = hp.nextId then some tab else hp.rowMem j })

/-- Heap well-formedness: every identifier at or above `nextId` is unused. -/
def Heap.WF (hp : Heap α) : Prop :=
  ∀ id : Nat, hp.nextId ≤ id → hp.dataMem id = none ∧ hp.rowMem id = none

/-- Dereference a `T*` pointer: `none` on a dangling block or an
out-of-bounds offset. -/
def readPtr (hp : Heap α) (p : Ptr) : Option α :=
  match hp.dataMem p.block with
  | none => none
  | some buf => buf[p.off]?

/-- Store through a `T*` pointer: `none` on a dangling block or an
out-of-bounds offset. -/
def writePtr (hp : Heap α) (p : Ptr) (v : α) : Option (Heap α) :=
  match hp.dataMem p.block with
  | none => none
  | some buf =>
    if p.off < buf.length then some (hp.setData p.block (some (buf.set p.off v))) else none

/-- Assign `v` at each index of `idxs` in turn (an out-of-range `List.set`
is the identity, matching the bounded loops of the source). -/
def setAll (l : List α) (v : α) (idxs : List Nat) : List α :=
  idxs.foldl (fun acc i => acc.set i v) l

/-- Map a fallible function over a list, failing if any element does
(`Option`-valued loop body). -/
def omap {β : Type} (f : Nat → Option β) : List Nat → Option (List β)
  | [] => some []
  | i :: is =>
    match f i, omap f is with
    | some v, some vs => some (v :: vs)
    | _, _ => none

@[simp] theorem setAll_nil (l : List α) (v : α) : setAll l v [] = l := rfl

theorem setAll_cons (l : List α) (v : α) (i : Nat) (is : List Nat) :
    setAll l v (i :: is) = setAll (l.set i v) v is := rfl

theorem setAll_length (l : List α) (v : α) (idxs : List Nat) :
    (setAll l v idxs).length = l.length := by
  induction idxs generalizing l with
  | nil => rfl
  | cons i is ih => rw [setAll_cons, ih, List.length_set]

theorem setAll_getElem? (l : List α) (v : α) (idxs : List Nat) (k : Nat) :
    (setAll l v idxs)[k]? =
      if k ∈ idxs ∧ k < l.length then some v else l[k]? := by
  induction idxs generalizing l with
  | nil => simp
  | cons i is ih =>
    rw [setAll_cons, ih, List.length_set, List.getElem?_set]
    simp only [List.mem_cons]
    by_cases h1 : k < l.length
    · by_cases h2 : k ∈ is
      · by_cases h3 : i = k <;> simp [h1, h2, h3]
      · by_cases h3 : i = k
        · subst h3; simp [h1, h2]
        · simp [h1, h2, h3, Ne.symm h3]
    · have h0 : l[k]? = none := List.getElem?_eq_none (by omega)
      by_cases h3 : i = k
      · subst h3; simp [h1, h0]
      · simp [h1, h0, h3]

theorem omap_length {β : Type} (f : Nat → Option β) (l : List Nat) (vs : List β)
    (h : omap f l = some vs) : vs.length = l.length := by
  induction l generalizing vs with
  | nil => simp [omap] at h; simp [← h]
  | cons i is ih =>
    simp only [omap] at h
    cases hf : f i with
    | none => rw [hf] at h; exact absurd h (by simp)
    | some v =>
      rw [hf] at h
      cases ho : omap f is with
      | none => rw [ho] at h; exact absurd h (by simp)
      | some ws =>
        rw [ho] at h
        cases h
        simp [ih ws ho]

theorem omap_getElem? {β : Type} (f : Nat → Option β) (l : List Nat) (vs : List β)
    (h : omap f l = some vs) (k : Nat) (hk : k < l.length) :
    ∃ i, l[k]? = some i ∧ f i = vs[k]? := by
  induction l generalizing vs k with
  | nil => simp at hk
  | cons i is ih =>
    simp only [omap] at h
    cases hf : f i with
    | none => rw [hf] at h; exact absurd h (by simp)
    | some v =>
      rw [hf] at h
      cases ho : omap f is with
      | none => rw [ho] at h; exact absurd h (by simp)
      | some ws =>
        rw [ho] at h
        cases h
        cases k with
        | zero => exact ⟨i, by simp, by simp [hf]⟩
        | succ k =>
          have hk' : k < is.length := by simpa using hk
          obtain ⟨j, hj1, hj2⟩ := ih ws ho k hk'
          exact ⟨j, by simpa using hj1, by simpa using hj2⟩

theorem omap_isSome {β : Type} (f : Nat → Option β) (l : List Nat)
    (h : ∀ i ∈ l, (f i).isSome) : ∃ vs, omap f l = some vs := by
  induction l with
  | nil => exact ⟨[], rfl⟩
  | cons i is ih =>
    obtain ⟨v, hv⟩ := Option.isSome_iff_exists.mp (h i (by simp))
    obtain ⟨vs, hvs⟩ := ih (fun j hj => h j (by simp [hj]))
    exact ⟨v :: vs, by simp [omap, hv, hvs]⟩

/-! ## The `array2D` class

Fields as in the source: `width`, `height`, the `rows` pointer (a `T**`,
modelled as the id of a row-table block, `none` for `nullptr`) and the
`data` pointer (a `T*` at offset 0, modelled as the id of an element
buffer, `none` for `nullptr`). -/

structure array2D where
  width : Nat
  height : Nat
  rows : Option Nat
  data : Option Nat
  deriving DecidableEq, Repr

/-- Flag `ARRAY2D_CLEAR_DATA = 1`. -/
def ARRAY2D_CLEAR_DATA : Nat := 1

/-- Flag `ARRAY2D_BYREFERENCE = 2`. -/
def ARRAY2D_BYREFERENCE : Nat := 2

/-- The default constructor `array2D()`: empty, all pointers null. -/
def array2D.mkEmpty : array2D := ⟨0, 0, none, none⟩

/-- `getWidth()` accessor. -/
def array2D.getWidth (a : array2D) : Nat := a.width

/-- `getHeight()` accessor. -/
def array2D.getHeight (a : array2D) : Nat := a.height

/-- `operator bool()`: `width > 0 && height > 0`. -/
def array2D.toBool (a : array2D) : Bool :=
  decide (a.width > 0) && decide (a.height > 0)

/-- Overwrite the first `entries.length` slots of row table `rid`, keeping
any tail beyond them (the `for (i = 0; i < height; i++) rows[i] = ...` loop
of `ar_realloc`, which touches only the first `height` slots of a possibly
longer reused table). -/
def Heap.writeRowsHead (hp : Heap α) (rid : Nat) (entries : List Ptr) : Heap α :=
  match hp.rowMem rid with
  | none => hp
  | some tab => hp.setRows rid (some (entries ++ tab.drop entries.length))

/-- The first block of `ar_realloc`:

    if (rows && (h > height || 4 * h < height)) { delete[] rows; rows = nullptr; }
    if (!rows) rows = new T*[h];

A fresh `new` block holds `default` in every slot (indeterminate contents);
the result is the heap together with the (non-null) `rows` id. -/
def rowsPhase [Inhabited α] (hp : Heap α) (a : array2D) (h : Nat) : Heap α × Nat :=
  let s1 : Heap α × Option Nat :=
    match a.rows with
    | some rid =>
      if a.height < h ∨ 4 * h < a.height then (hp.setRows rid none, none) else (hp, some rid)
    | none => (hp, none)
  match s1.2 with
  | some rid => (s1.1, rid)
  | none =>
    let p := s1.1.allocRows (List.replicate h default)
    (p.2, p.1)

/-- The second block of `ar_realloc`:

    if (data && ((h * w > width * height) || (h * w < (width * height / 4)))) {
        delete[] data; data = nullptr; }
    width = w; height = h;
    if (!data) data = new T[height * width + offset];

(the hysteresis conditions read the OLD `width`/`height`, the allocation
size the new ones); the result is the heap and the (non-null) `data` id. -/
def dataPhase [Inhabited α] (hp : Heap α) (a : array2D) (w h offset : Nat) :
    Heap α × Nat :=
  let s3 : Heap α × Option Nat :=
    match a.data with
    | some did =>
      if a.width * a.height < h * w ∨ h * w < a.width * a.height / 4 then
        (hp.setData did none, none)
      else (hp, some did)
    | none => (hp, none)
  match s3.2 with
  | some did => (s3.1, did)
  | none =>
    let p := s3.1.allocData (List.replicate (h * w + offset) default)
    (p.2, p.1)

/-- `ar_realloc(w, h, offset)`: the two blocks above followed by the final
row-pointer loop `for (i = 0; i < height; i++) rows[i] = data + offset + width * i;`. -/
def array2D.ar_realloc [Inhabited α] (hp : Heap α) (a : array2D) (w h : Nat)
    (offset : Nat := 0) : Heap α × array2D :=
  let s2 := rowsPhase hp a h
  let s4 := dataPhase s2.1 a w h offset
  let hp5 := s4.1.writeRowsHead s2.2 ((List.range h).map (fun i => ⟨s4.2, offset + w * i⟩))
  (hp5, ⟨w, h, some s2.2, some s4.2⟩)

/-- `memset(data + offset, 0, width * height * sizeof(T))`: zero the buffer
positions `offset .. offset + width*height - 1` of the data block. -/
def array2D.clearRegion [Zero α] (hp : Heap α) (a : array2D) (offset : Nat) : Heap α :=
  match a.data with
  | none => hp
  | some did =>
    match hp.dataMem did with
    | none => hp
    | some buf =>
      hp.setData did
        (some (setAll buf 0 ((List.range (a.width * a.height)).map (· + offset))))

/-- `operator()(w, h, flags, offset)`: resize via `ar_realloc`, then
optionally clear the active region. -/
def array2D.resize [Inhabited α] [Zero α] (hp : Heap α) (a : array2D)
    (w h : Nat) (flags : Nat := 0) (offset : Nat := 0) : Heap α × array2D :=
  let r := a.ar_realloc hp w h offset
  if flags &&& ARRAY2D_CLEAR_DATA ≠ 0 then (r.2.clearRegion r.1 offset, r.2) else r

/-- Creator type 1, `array2D(w, h, flags)`: allocate `data` (size `h*w`),
allocate `rows` (size `h`), point `rows[i] = data + i*w`, and zero the
buffer when `ARRAY2D_CLEAR_DATA` is set. -/
def array2D.mkSized [Inhabited α] [Zero α] (hp : Heap α) (w h : Nat)
    (flags : Nat := 0) : Heap α × array2D :=
  let buf : List α :=
    if flags &&& ARRAY2D_CLEAR_DATA ≠ 0 then List.replicate (h * w) 0
    else List.replicate (h * w) default
  let pd := hp.allocData buf
  let pr := pd.2.allocRows ((List.range h).map (fun i => ⟨pd.1, i * w⟩))
  (pr.2, ⟨w, h, some pr.1, some pd.1⟩)

/-- Read `source[i][j]` out of an external row-pointer table `src`. -/
def readSrcCell (hp : Heap α) (src : List Ptr) (i j : Nat) : Option α :=
  match src[i]? with
  | none => none
  | some p => readPtr hp ⟨p.block, p.off + j⟩

/-- Creator type 2, `array2D(w, h, source, flags)`.  Without
`ARRAY2D_BYREFERENCE` it allocates an owning buffer and deep-copies
`source[i][j]` into `data[i*w + j]`; with the flag it stores the `source`
row pointers directly and leaves `data` null.  A read through an invalid
source pointer is a fault (`none`). -/
def array2D.mkFromSource [Inhabited α] (hp : Heap α) (w h : Nat) (src : List Ptr)
    (flags : Nat := 0) : Option (Heap α × array2D) :=
  if flags &&& ARRAY2D_BYREFERENCE = 0 then
    match omap (fun k => readSrcCell hp src (k / w) (k % w)) (List.range (h * w)) with
    | none => none
    | some buf =>
      let pd := hp.allocData buf
      let pr := pd.2.allocRows ((List.range h).map (fun i => ⟨pd.1, i * w⟩))
      some (pr.2, ⟨w, h, some pr.1, some pd.1⟩)
  else
    match omap (fun i => src[i]?) (List.range h) with
    | none => none
    | some rtab =>
      let pr := hp.allocRows rtab
      some (pr.2, ⟨w, h, some pr.1, none⟩)

/-- `delete[] data` on a possibly-null pointer: deleting `nullptr` is a
no-op, deleting a live block removes it, deleting a dangling pointer is a
fault (`none`, the double-free case). -/
def Heap.deleteData (hp : Heap α) : Option Nat → Option (Heap α)
  | none => some hp
  | some did =>
    match hp.dataMem did with
    | none => none
    | some _ => some (hp.setData did none)

/-- `delete[] rows` on a possibly-null pointer, as `Heap.deleteData`. -/
def Heap.deleteRows (hp : Heap α) : Option Nat → Option (Heap α)
  | none => some hp
  | some rid =>
    match hp.rowMem rid with
    | none => none
    | some _ => some (hp.setRows rid none)

/-- `free()`: `delete[] data; data = nullptr; delete[] rows; rows = nullptr;`
(note: the source leaves `width` and `height` untouched). -/
def array2D.freeOp (hp : Heap α) (a : array2D) : Option (Heap α × array2D) :=
  match hp.deleteData a.data with
  | none => none
  | some hp1 =>
    match hp1.deleteRows a.rows with
    | none => none
    | some hp2 => some (hp2, { a with rows := none, data := none })

/-- The destructor `~array2D()`: `delete[] data; delete[] rows;`. -/
def array2D.destroy (hp : Heap α) (a : array2D) : Option (Heap α) :=
  match hp.deleteData a.data with
  | none => none
  | some hp1 => hp1.deleteRows a.rows

/-- `fill(val, multiThread)`: `for (i = 0; i < width*height; i++) data[i] = val;`
writing through the flat `data` pointer only.  The loop body faults on a
null or dangling `data` or an out-of-bounds store; with `width*height == 0`
the loop body never runs. -/
def array2D.fill (hp : Heap α) (a : array2D) (v : α) : Option (Heap α) :=
  if a.width * a.height = 0 then some hp
  else
    match a.data with
    | none => none
    | some did =>
      match hp.dataMem did with
      | none => none
      | some buf =>
        if a.width * a.height ≤ buf.length then
          some (hp.setData did (some (setAll buf v (List.range (a.width * a.height)))))
        else none

/-- `fill` with the element stores performed in an arbitrary index order
`order` (the OpenMP parallel mode distributes the same stores over
threads; `order` ranges over the interleavings). -/
def array2D.fillOrd (hp : Heap α) (a : array2D) (v : α) (order : List Nat) :
    Option (Heap α) :=
  if a.width * a.height = 0 then some hp
  else
    match a.data with
    | none => none
    | some did =>
      match hp.dataMem did with
      | none => none
      | some buf =>
        if a.width * a.height ≤ buf.length then
          some (hp.setData did (some (setAll buf v order)))
        else none

/-- `operator[](y)` followed by `[x]`: look up the row pointer and read at
column offset `x`. -/
def array2D.aget (hp : Heap α) (a : array2D) (y x : Nat) : Option α :=
  match a.rows with
  | none => none
  | some rid =>
    match hp.rowMem rid with
    | none => none
    | some rtab =>
      match rtab[y]? with
      | none => none
      | some p => readPtr hp ⟨p.block, p.off + x⟩

/-- `array[y][x] = v`: look up the row pointer and store at column offset
`x`. -/
def array2D.aset (hp : Heap α) (a : array2D) (y x : Nat) (v : α) : Option (Heap α) :=
  match a.rows with
  | none => none
  | some rid =>
    match hp.rowMem rid with
    | none => none
    | some rtab =>
      match rtab[y]? with
      | none => none
      | some p => writePtr hp ⟨p.block, p.off + x⟩ v

/-- The owning-instance invariant with per-instance element offset `off`:
both pointers non-null and live, the row table long enough, the buffer
covering the active region, and `rows[i] = data + off + width * i`. -/
def OwnInv (hp : Heap α) (a : array2D) (off : Nat) : Prop :=
  ∃ did rid rtab buf,
    a.data = some did ∧ a.rows = some rid ∧
    hp.rowMem rid = some rtab ∧ hp.dataMem did = some buf ∧
    a.height ≤ rtab.length ∧ off + a.width * a.height ≤ buf.length ∧
    ∀ i, i < a.height → rtab[i]? = some ⟨did, off + a.width * i⟩

/-- The referencing-instance invariant: `data` is null and the row table is
a live allocation (its entries point into externally owned blocks). -/
def RefInv (hp : Heap α) (a : array2D) : Prop :=
  a.data = none ∧ ∃ rid rtab, a.rows = some rid ∧ hp.rowMem rid = some rtab

/-- Pointer validity: each of `data`/`rows` is either null or a live block
(no dangling pointers), so `delete[]` on it is defined. -/
def Valid (hp : Heap α) (a : array2D) : Prop :=
  (∀ did, a.data = some did → ∃ buf, hp.dataMem did = some buf) ∧
  (∀ rid, a.rows = some rid → ∃ tab, hp.rowMem rid = some tab)

/-- The `multi_array2D<T, num>` constructor: `num` default-constructed
slots, then `list[i](width, height, flags, (i + 1) * offset)` for each. -/
def multiConstruct [Inhabited α] [Zero α] (hp : Heap α) (num w h : Nat)
    (flags : Nat := 0) (offset : Nat := 0) : Heap α × List array2D :=
  (List.range num).foldl
    (fun acc i =>
      let r := array2D.resize acc.1 array2D.mkEmpty w h flags ((i + 1) * offset)
      (r.1, acc.2 ++ [r.2]))
    (hp, [])

/-! ## Basic heap lemmas -/

@[simp] theorem Heap.dataMem_setData_self (hp : Heap α) (id : Nat)
    (buf : Option (List α)) : (hp.setData id buf).dataMem id = buf := by
  simp [Heap.setData]

theorem Heap.dataMem_setData_ne (hp : Heap α) {id j : Nat}
    (buf : Option (List α)) (h : j ≠ id) :
    (hp.setData id buf).dataMem j = hp.dataMem j := by
  simp [Heap.setData, h]

@[simp] theorem Heap.rowMem_setData (hp : Heap α) (id : Nat)
    (buf : Option (List α)) : (hp.setData id buf).rowMem = hp.rowMem := rfl

@[simp] theorem Heap.nextId_setData (hp : Heap α) (id : Nat)
    (buf : Option (List α)) : (hp.setData id buf).nextId = hp.nextId := rfl

@[simp] theorem Heap.rowMem_setRows_self (hp : Heap α) (id : Nat)
    (tab : Option (List Ptr)) : (hp.setRows id tab).rowMem id = tab := by
  simp [Heap.setRows]

theorem Heap.rowMem_setRows_ne (hp : Heap α) {id j : Nat}
    (tab : Option (List Ptr)) (h : j ≠ id) :
    (hp.setRows id tab).rowMem j = hp.rowMem j := by
  simp [Heap.setRows, h]

@[simp] theorem Heap.dataMem_setRows (hp : Heap α) (id : Nat)
    (tab : Option (List Ptr)) : (hp.setRows id tab).dataMem = hp.dataMem := rfl

@[simp] theorem Heap.nextId_setRows (hp : Heap α) (id : Nat)
    (tab : Option (List Ptr)) : (hp.setRows id tab).nextId = hp.nextId := rfl

@[simp] theorem Heap.allocData_fst (hp : Heap α) (buf : List α) :
    (hp.allocData buf).1 = hp.nextId := rfl

@[simp] theorem Heap.allocData_nextId (hp : Heap α) (buf : List α) :
    (hp.allocData buf).2.nextId = hp.nextId + 1 := rfl

@[simp] theorem Heap.allocData_dataMem_self (hp : Heap α) (buf : List α) :
    (hp.allocData buf).2.dataMem hp.nextId = some buf := by
  simp [Heap.allocData]

theorem Heap.allocData_dataMem_ne (hp : Heap α) (buf : List α) {j : Nat}
    (h : j ≠ hp.nextId) : (hp.allocData buf).2.dataMem j = hp.dataMem j := by
  simp [Heap.allocData, h]

@[simp] theorem Heap.allocData_rowMem (hp : Heap α) (buf : List α) :
    (hp.allocData buf).2.rowMem = hp.rowMem := rfl

@[simp] theorem Heap.allocRows_fst (hp : Heap α) (tab : List Ptr) :
    (hp.allocRows tab).1 = hp.nextId := rfl

@[simp] theorem Heap.allocRows_nextId (hp : Heap α) (tab : List Ptr) :
    (hp.allocRows tab).2.nextId = hp.nextId + 1 := rfl

@[simp] theorem Heap.allocRows_rowMem_self (hp : Heap α) (tab : List Ptr) :
    (hp.allocRows tab).2.rowMem hp.nextId = some tab := by
  simp [Heap.allocRows]

theorem Heap.allocRows_rowMem_ne (hp : Heap α) (tab : List Ptr) {j : Nat}
    (h : j ≠ hp.nextId) : (hp.allocRows tab).2.rowMem j = hp.rowMem j := by
  simp [Heap.allocRows, h]

@[simp] theorem Heap.allocRows_dataMem (hp : Heap α) (tab : List Ptr) :
    (hp.allocRows tab).2.dataMem = hp.dataMem := rfl

theorem Heap.WF.live_data {hp : Heap α} (hW : hp.WF) {id : Nat}
    {buf : List α} (h : hp.dataMem id = some buf) : id < hp.nextId := by
  by_contra hc
  have h2 : hp.nextId ≤ id := by omega
  have := (hW id h2).1
  rw [this] at h
  exact Option.noConfusion h

theorem Heap.WF.live_rows {hp : Heap α} (hW : hp.WF) {id : Nat}
    {tab : List Ptr} (h : hp.rowMem id = some tab) : id < hp.nextId := by
  by_contra hc
  have h2 : hp.nextId ≤ id := by omega
  have := (hW id h2).2
  rw [this] at h
  exact Option.noConfusion h

theorem Heap.WF.setData {hp : Heap α} (hW : hp.WF) (id : Nat)
    (h : id < hp.nextId) (buf : Option (List α)) : (hp.setData id buf).WF := by
  intro j hj
  have hj' : hp.nextId ≤ j := by simpa using hj
  have hne : j ≠ id := by omega
  rw [Heap.dataMem_setData_ne hp buf hne]
  simpa using hW j hj'

theorem Heap.WF.setRows {hp : Heap α} (hW : hp.WF) (id : Nat)
    (h : id < hp.nextId) (tab : Option (List Ptr)) : (hp.setRows id tab).WF := by
  intro j hj
  have hj' : hp.nextId ≤ j := by simpa using hj
  have hne : j ≠ id := by omega
  rw [Heap.rowMem_setRows_ne hp tab hne]
  simpa using hW j hj'

theorem Heap.WF.allocData {hp : Heap α} (hW : hp.WF) (buf : List α) :
    (hp.allocData buf).2.WF := by
  intro j hj
  have hj' : hp.nextId + 1 ≤ j := by simpa using hj
  have hne : j ≠ hp.nextId := by omega
  have h3 : hp.nextId ≤ j := by omega
  rw [Heap.allocData_dataMem_ne hp buf hne, Heap.allocData_rowMem]
  exact hW j h3

theorem Heap.WF.allocRows {hp : Heap α} (hW : hp.WF) (tab : List Ptr) :
    (hp.allocRows tab).2.WF := by
  intro j hj
  have hj' : hp.nextId + 1 ≤ j := by simpa using hj
  have hne : j ≠ hp.nextId := by omega
  have h3 : hp.nextId ≤ j := by omega
  rw [Heap.allocRows_rowMem_ne hp tab hne, Heap.allocRows_dataMem]
  exact hW j h3

theorem Heap.WF.writeRowsHead {hp : Heap α} (hW : hp.WF) (rid : Nat)
    (entries : List Ptr) : (hp.writeRowsHead rid entries).WF := by
  unfold Heap.writeRowsHead
  cases htab : hp.rowMem rid with
  | none => exact hW
  | some tab => exact hW.setRows rid (hW.live_rows htab) _

theorem Heap.writeRowsHead_rowMem_self (hp : Heap α) {rid : Nat}
    (entries : List Ptr) {tab : List Ptr} (h : hp.rowMem rid = some tab) :
    (hp.writeRowsHead rid entries).rowMem rid =
      some (entries ++ tab.drop entries.length) := by
  unfold Heap.writeRowsHead
  rw [h]
  simp

theorem Heap.writeRowsHead_rowMem_ne (hp : Heap α) {rid j : Nat}
    (entries : List Ptr) (h : j ≠ rid) :
    (hp.writeRowsHead rid entries).rowMem j = hp.rowMem j := by
  unfold Heap.writeRowsHead
  cases htab : hp.rowMem rid with
  | none => rfl
  | some tab => exact Heap.rowMem_setRows_ne _ _ h

@[simp] theorem Heap.writeRowsHead_dataMem (hp : Heap α) (rid : Nat)
    (entries : List Ptr) :
    (hp.writeRowsHead rid entries).dataMem = hp.dataMem := by
  unfold Heap.writeRowsHead
  cases hp.rowMem rid <;> rfl

@[simp] theorem Heap.writeRowsHead_nextId (hp : Heap α) (rid : Nat)
    (entries : List Ptr) :
    (hp.writeRowsHead rid entries).nextId = hp.nextId := by
  unfold Heap.writeRowsHead
  cases hp.rowMem rid <;> rfl

/-! ## `ar_realloc` postconditions -/

theorem getElem?_range_map {β : Type} (f : Nat → β) {h i : Nat} (hi : i < h) :
    ((List.range h).map f)[i]? = some (f i) := by
  simp [List.getElem?_map, List.getElem?_range, hi]

theorem length_range_map {β : Type} (f : Nat → β) (h : Nat) :
    ((List.range h).map f).length = h := by
  simp

/-- `rowsPhase` when the row table is kept: nothing happens. -/
theorem rowsPhase_keep [Inhabited α] (hp : Heap α) {a : array2D} {rid : Nat}
    (hrows : a.rows = some rid) {h : Nat}
    (hR : ¬(a.height < h ∨ 4 * h < a.height)) :
    rowsPhase hp a h = (hp, rid) := by
  simp [rowsPhase, hrows, hR]

/-- `rowsPhase` when the old table is freed: a fresh table of size `h`. -/
theorem rowsPhase_fresh [Inhabited α] (hp : Heap α) {a : array2D} {rid : Nat}
    (hrows : a.rows = some rid) {h : Nat}
    (hR : a.height < h ∨ 4 * h < a.height) :
    rowsPhase hp a h =
      (((hp.setRows rid none).allocRows (List.replicate h default)).2, hp.nextId) := by
  simp [rowsPhase, hrows, hR]

/-- `rowsPhase` on a null `rows` pointer: a fresh table of size `h`. -/
theorem rowsPhase_null [Inhabited α] (hp : Heap α) {a : array2D}
    (hrows : a.rows = none) (h : Nat) :
    rowsPhase hp a h = ((hp.allocRows (List.replicate h default)).2, hp.nextId) := by
  simp [rowsPhase, hrows]

/-- `dataPhase` when the buffer is kept: nothing happens. -/
theorem dataPhase_keep [Inhabited α] (hp : Heap α) {a : array2D} {did : Nat}
    (hdata : a.data = some did) {w h : Nat} (offset : Nat)
    (hD : ¬(a.width * a.height < h * w ∨ h * w < a.width * a.height / 4)) :
    dataPhase hp a w h offset = (hp, did) := by
  simp [dataPhase, hdata, hD]

/-- `dataPhase` when the old buffer is freed: a fresh buffer of size
`h * w + offset`. -/
theorem dataPhase_fresh [Inhabited α] (hp : Heap α) {a : array2D} {did : Nat}
    (hdata : a.data = some did) {w h : Nat} (offset : Nat)
    (hD : a.width * a.height < h * w ∨ h * w < a.width * a.height / 4) :
    dataPhase hp a w h offset =
      (((hp.setData did none).allocData (List.replicate (h * w + offset) default)).2,
        hp.nextId) := by
  simp [dataPhase, hdata, hD]

/-- `dataPhase` on a null `data` pointer: a fresh buffer of size
`h * w + offset`. -/
theorem dataPhase_null [Inhabited α] (hp : Heap α) {a : array2D}
    (hdata : a.data = none) (w h offset : Nat) :
    dataPhase hp a w h offset =
      ((hp.allocData (List.replicate (h * w + offset) default)).2, hp.nextId) := by
  simp [dataPhase, hdata]

/-- `rowsPhase` never touches the element buffers. -/
theorem rowsPhase_dataMem [Inhabited α] (hp : Heap α) (a : array2D) (h : Nat) :
    (rowsPhase hp a h).1.dataMem = hp.dataMem := by
  unfold rowsPhase
  cases hrows : a.rows with
  | none => rfl
  | some rid =>
    by_cases hR : a.height < h ∨ 4 * h < a.height <;> simp [hR]

/-- `dataPhase` never touches the row tables. -/
theorem dataPhase_rowMem [Inhabited α] (hp : Heap α) (a : array2D)
    (w h offset : Nat) : (dataPhase hp a w h offset).1.rowMem = hp.rowMem := by
  unfold dataPhase
  cases hdata : a.data with
  | none => rfl
  | some did =>
    by_cases hD : a.width * a.height < h * w ∨ h * w < a.width * a.height / 4 <;> simp [hD]

/-- `rowsPhase` facts: well-formedness, a live non-null result table, data
blocks untouched, `nextId` monotone. -/
theorem rowsPhase_spec [Inhabited α] {hp : Heap α} {a : array2D} (hW : hp.WF)
    (hVr : ∀ rid, a.rows = some rid → ∃ tab, hp.rowMem rid = some tab) (h : Nat) :
    (rowsPhase hp a h).1.WF ∧
    hp.nextId ≤ (rowsPhase hp a h).1.nextId ∧
    (rowsPhase hp a h).2 < (rowsPhase hp a h).1.nextId ∧
    ∃ tab, (rowsPhase hp a h).1.rowMem (rowsPhase hp a h).2 = some tab := by
  cases hrows : a.rows with
  | none =>
    rw [rowsPhase_null hp hrows]
    exact ⟨hW.allocRows _, by simp, by simp, List.replicate h default,
      Heap.allocRows_rowMem_self hp _⟩
  | some rid =>
    obtain ⟨tab, htab⟩ := hVr rid hrows
    by_cases hR : a.height < h ∨ 4 * h < a.height
    · rw [rowsPhase_fresh hp hrows hR]
      refine ⟨(hW.setRows rid (hW.live_rows htab) none).allocRows _, by simp, by simp,
        List.replicate h default, ?_⟩
      have := Heap.allocRows_rowMem_self (hp.setRows rid none) (List.replicate h default)
      simpa using this
    · rw [rowsPhase_keep hp hrows hR]
      exact ⟨hW, le_refl _, hW.live_rows htab, tab, htab⟩

/-- `dataPhase` facts: well-formedness, a live non-null result buffer which
is fresh (of size `h*w + offset`) or the reused old block, row tables
untouched, `nextId` monotone. -/
theorem dataPhase_spec [Inhabited α] {hp : Heap α} {a : array2D} (hW : hp.WF)
    (hVd : ∀ did, a.data = some did → ∃ buf, hp.dataMem did = some buf)
    (w h offset : Nat) :
    (dataPhase hp a w h offset).1.WF ∧
    hp.nextId ≤ (dataPhase hp a w h offset).1.nextId ∧
    (dataPhase hp a w h offset).2 < (dataPhase hp a w h offset).1.nextId ∧
    ∃ buf,
      (dataPhase hp a w h offset).1.dataMem (dataPhase hp a w h offset).2 = some buf ∧
      (buf = List.replicate (h * w + offset) default ∨
        (a.data = some (dataPhase hp a w h offset).2 ∧ hp.dataMem (dataPhase hp a w h offset).2 = some buf)) := by
  cases hdata : a.data with
  | none =>
    rw [dataPhase_null hp hdata]
    exact ⟨hW.allocData _, by simp, by simp, List.replicate (h * w + offset) default,
      Heap.allocData_dataMem_self hp _, Or.inl rfl⟩
  | some did =>
    obtain ⟨buf, hbuf⟩ := hVd did hdata
    by_cases hD : a.width * a.height < h * w ∨ h * w < a.width * a.height / 4
    · rw [dataPhase_fresh hp hdata offset hD]
      refine ⟨(hW.setData did (hW.live_data hbuf) none).allocData _, by simp, by simp,
        List.replicate (h * w + offset) default, ?_, Or.inl rfl⟩
      have := Heap.allocData_dataMem_self (hp.setData did none)
        (List.replicate (h * w + offset) default)
      simpa using this
    · rw [dataPhase_keep hp hdata offset hD]
      exact ⟨hW, le_refl _, hW.live_data hbuf, buf, hbuf, Or.inr ⟨rfl, hbuf⟩⟩

/-- After `ar_realloc`, whatever the starting pointer state: the heap stays
well-formed, `nextId` does not decrease, the shape is `(w, h)`, both
pointers are non-null and live, the first `h` row-table slots hold
`data + offset + w * i`, and the data buffer is either the fresh
`new T[h*w + offset]` block or the reused block with its old contents. -/
theorem ar_realloc_post [Inhabited α] {hp : Heap α} {a : array2D} (hW : hp.WF)
    (hV : Valid hp a) (w h offset : Nat) :
    (a.ar_realloc hp w h offset).1.WF ∧
    (a.ar_realloc hp w h offset).2.width = w ∧
    (a.ar_realloc hp w h offset).2.height = h ∧
    hp.nextId ≤ (a.ar_realloc hp w h offset).1.nextId ∧
    ∃ rid did rtab buf,
      (a.ar_realloc hp w h offset).2.rows = some rid ∧
      (a.ar_realloc hp w h offset).2.data = some did ∧
      (a.ar_realloc hp w h offset).1.rowMem rid = some rtab ∧
      (a.ar_realloc hp w h offset).1.dataMem did = some buf ∧
      h ≤ rtab.length ∧
      (∀ i, i < h → rtab[i]? = some ⟨did, offset + w * i⟩) ∧
      (buf = List.replicate (h * w + offset) default ∨
        (a.data = some did ∧ hp.dataMem did = some buf)) := by
  obtain ⟨hVd, hVr⟩ := hV
  obtain ⟨hW2, hn2, hlive2, tab, htab⟩ := rowsPhase_spec hW hVr h
  have hVd2 : ∀ did, a.data = some did → ∃ buf, (rowsPhase hp a h).1.dataMem did = some buf := by
    intro did hd
    rw [rowsPhase_dataMem]
    exact hVd did hd
  obtain ⟨hW4, hn4, hlive4, buf, hbuf, hbufCase⟩ := dataPhase_spec hW2 hVd2 w h offset
  set s2 := rowsPhase hp a h with hs2
  set s4 := dataPhase s2.1 a w h offset with hs4
  have htab4 : s4.1.rowMem s2.2 = some tab := by
    rw [hs4, dataPhase_rowMem]
    exact htab
  have har : a.ar_realloc hp w h offset =
      (s4.1.writeRowsHead s2.2 ((List.range h).map (fun i => ⟨s4.2, offset + w * i⟩)),
        ⟨w, h, some s2.2, some s4.2⟩) := rfl
  rw [har]
  set entries := (List.range h).map (fun i => (⟨s4.2, offset + w * i⟩ : Ptr)) with hent
  have hentlen : entries.length = h := by simp [hent]
  have hrt : (s4.1.writeRowsHead s2.2 entries).rowMem s2.2 =
      some (entries ++ tab.drop entries.length) :=
    Heap.writeRowsHead_rowMem_self s4.1 entries htab4
  refine ⟨hW4.writeRowsHead s2.2 entries, rfl, rfl, by simp; omega,
    s2.2, s4.2, entries ++ tab.drop entries.length, buf, rfl, rfl, hrt, ?_, ?_, ?_, ?_⟩
  · simp only [Heap.writeRowsHead_dataMem]
    exact hbuf
  · rw [List.length_append, hentlen]
    omega
  · intro i hi
    have hlt : i < entries.length := by rw [hentlen]; exact hi
    rw [List.getElem?_append, if_pos hlt, hent]
    exact getElem?_range_map _ hi
  · rcases hbufCase with hfresh | ⟨hkeep, hold⟩
    · exact Or.inl hfresh
    · refine Or.inr ⟨hkeep, ?_⟩
      rw [← hold, hs2, rowsPhase_dataMem]


/-! ## Pointer access lemmas -/

theorem Heap.WF_empty : (Heap.empty : Heap α).WF := fun _ _ => ⟨rfl, rfl⟩

theorem writePtr_eq {hp : Heap α} {p : Ptr} {v : α} {buf : List α}
    (hbuf : hp.dataMem p.block = some buf) (hlt : p.off < buf.length) :
    writePtr hp p v = some (hp.setData p.block (some (buf.set p.off v))) := by
  unfold writePtr
  simp only [hbuf]
  rw [if_pos hlt]

theorem writePtr_some {hp hp' : Heap α} {p : Ptr} {v : α}
    (h : writePtr hp p v = some hp') :
    ∃ buf, hp.dataMem p.block = some buf ∧ p.off < buf.length ∧
      hp' = hp.setData p.block (some (buf.set p.off v)) := by
  unfold writePtr at h
  cases hbuf : hp.dataMem p.block with
  | none =>
    simp only [hbuf] at h
    exact Option.noConfusion h
  | some buf =>
    simp only [hbuf] at h
    by_cases hlt : p.off < buf.length
    · rw [if_pos hlt] at h
      exact ⟨buf, rfl, hlt, (Option.some.injEq _ _ ▸ h).symm⟩
    · rw [if_neg hlt] at h
      exact absurd h (by simp)

theorem readPtr_writePtr_self {hp hp' : Heap α} {p : Ptr} {v : α}
    (h : writePtr hp p v = some hp') : readPtr hp' p = some v := by
  obtain ⟨buf, hbuf, hlt, rfl⟩ := writePtr_some h
  unfold readPtr
  simp [List.getElem?_set, hlt]

theorem readPtr_writePtr_ne {hp hp' : Heap α} {p q : Ptr} {v : α}
    (h : writePtr hp p v = some hp') (hne : q ≠ p) : readPtr hp' q = readPtr hp q := by
  obtain ⟨buf, hbuf, hlt, rfl⟩ := writePtr_some h
  unfold readPtr
  by_cases hb : q.block = p.block
  · have hoff : q.off ≠ p.off := by
      intro ho
      exact hne (by cases p; cases q; simp_all)
    rw [hb]
    simp only [Heap.dataMem_setData_self, hbuf]
    rw [List.getElem?_set, if_neg (fun hc => hoff hc.symm)]
  · rw [Heap.dataMem_setData_ne hp _ hb]

theorem writePtr_rowMem {hp hp' : Heap α} {p : Ptr} {v : α}
    (h : writePtr hp p v = some hp') : hp'.rowMem = hp.rowMem := by
  obtain ⟨buf, hbuf, hlt, rfl⟩ := writePtr_some h
  rfl

theorem writePtr_dataMem_ne {hp hp' : Heap α} {p : Ptr} {v : α}
    (h : writePtr hp p v = some hp') {id : Nat} (hne : id ≠ p.block) :
    hp'.dataMem id = hp.dataMem id := by
  obtain ⟨buf, hbuf, hlt, rfl⟩ := writePtr_some h
  exact Heap.dataMem_setData_ne hp _ hne

/-- Distinct valid coordinates have distinct row-major linear offsets. -/
theorem rowmajor_inj {w y x y' x' : Nat} (hx : x < w) (hx' : x' < w)
    (hne : ¬(y = y' ∧ x = x')) : w * y + x ≠ w * y' + x' := by
  rcases Nat.lt_trichotomy y y' with hlt | heq | hgt
  · have h1 : w * (y + 1) ≤ w * y' := Nat.mul_le_mul_left w hlt
    have h2 : w * (y + 1) = w * y + w := by ring
    omega
  · subst heq
    have : x ≠ x' := fun hc => hne ⟨rfl, hc⟩
    omega
  · have h1 : w * (y' + 1) ≤ w * y := Nat.mul_le_mul_left w hgt
    have h2 : w * (y' + 1) = w * y' + w := by ring
    omega

/-- Under the owning invariant, element `(y, x)` is buffer position
`off + width * y + x`, which is in bounds. -/
theorem OwnInv.aget_flat {hp : Heap α} {a : array2D} {off : Nat}
    (hI : OwnInv hp a off) {y x : Nat} (hy : y < a.height) (hx : x < a.width) :
    ∃ did buf, a.data = some did ∧ hp.dataMem did = some buf ∧
      off + a.width * y + x < buf.length ∧
      a.aget hp y x = buf[off + a.width * y + x]? := by
  obtain ⟨did, rid, rtab, buf, hd, hr, htab, hbuf, hlen, hblen, hpt⟩ := hI
  have hbound : off + a.width * y + x < buf.length := by
    have h1 : a.width * (y + 1) ≤ a.width * a.height := Nat.mul_le_mul_left _ hy
    have h2 : a.width * (y + 1) = a.width * y + a.width := by ring
    omega
  refine ⟨did, buf, hd, hbuf, hbound, ?_⟩
  unfold array2D.aget
  simp only [hr, htab, hpt y hy]
  unfold readPtr
  simp only [hbuf]

/-- Under the owning invariant, `array[y][x] = v` succeeds and is the store
at buffer position `off + width * y + x`. -/
theorem OwnInv.aset_flat {hp : Heap α} {a : array2D} {off : Nat}
    (hI : OwnInv hp a off) {y x : Nat} (hy : y < a.height) (hx : x < a.width) (v : α) :
    ∃ did buf, a.data = some did ∧ hp.dataMem did = some buf ∧
      off + a.width * y + x < buf.length ∧
      a.aset hp y x v =
        some (hp.setData did (some (buf.set (off + a.width * y + x) v))) := by
  obtain ⟨did, rid, rtab, buf, hd, hr, htab, hbuf, hlen, hblen, hpt⟩ := hI
  have hbound : off + a.width * y + x < buf.length := by
    have h1 : a.width * (y + 1) ≤ a.width * a.height := Nat.mul_le_mul_left _ hy
    have h2 : a.width * (y + 1) = a.width * y + a.width := by ring
    omega
  refine ⟨did, buf, hd, hbuf, hbound, ?_⟩
  unfold array2D.aset
  simp only [hr, htab, hpt y hy]
  exact writePtr_eq hbuf hbound

/-- Replacing the data buffer by one of equal length preserves the owning
invariant (the row table is untouched). -/
theorem OwnInv.setData_update {hp : Heap α} {a : array2D} {off : Nat}
    (hI : OwnInv hp a off) {did : Nat} {buf newbuf : List α}
    (hd : a.data = some did) (hbuf : hp.dataMem did = some buf)
    (hlen : newbuf.length = buf.length) :
    OwnInv (hp.setData did (some newbuf)) a off := by
  obtain ⟨did0, rid, rtab, buf0, hd0, hr0, htab0, hbuf0, h1, h2, h3⟩ := hI
  have hdid : did0 = did := by rw [hd0] at hd; exact Option.some.inj hd
  subst hdid
  have hbb : buf0 = buf := by rw [hbuf0] at hbuf; exact Option.some.inj hbuf
  subst hbb
  exact ⟨did0, rid, rtab, newbuf, hd0, hr0, by simpa using htab0, by simp, h1,
    by omega, h3⟩

/-! ## Claim C1 -/

/-- C1 (amended): for every instance with valid (live or null) pointers,
`free()` releases the buffers, nulls `data` and `rows`, and is idempotent —
calling it again succeeds and changes nothing — but the shape queries are
NOT reset: `getWidth`, `getHeight` and `operator bool` report the same
values as before the call (the source never clears `width`/`height`). -/
theorem C1_free_nulls_pointers_idempotent_shape_kept {hp : Heap α} {a : array2D}
    (hV : Valid hp a) :
    ∃ hp' a', a.freeOp hp = some (hp', a') ∧
      a'.data = none ∧ a'.rows = none ∧
      a'.getWidth = a.getWidth ∧ a'.getHeight = a.getHeight ∧ a'.toBool = a.toBool ∧
      a'.freeOp hp' = some (hp', a') := by
  obtain ⟨hVd, hVr⟩ := hV
  have hd : ∃ hp1, hp.deleteData a.data = some hp1 ∧ hp1.rowMem = hp.rowMem := by
    cases hdata : a.data with
    | none => exact ⟨hp, rfl, rfl⟩
    | some did =>
      obtain ⟨buf, hbuf⟩ := hVd did hdata
      refine ⟨hp.setData did none, ?_, rfl⟩
      simp [Heap.deleteData, hbuf]
  obtain ⟨hp1, hd1, hrm⟩ := hd
  have hr : ∃ hp2, hp1.deleteRows a.rows = some hp2 := by
    cases hrows : a.rows with
    | none => exact ⟨hp1, rfl⟩
    | some rid =>
      obtain ⟨tab, htab⟩ := hVr rid hrows
      refine ⟨hp1.setRows rid none, ?_⟩
      simp [Heap.deleteRows, hrm, htab]
  obtain ⟨hp2, hd2⟩ := hr
  refine ⟨hp2, { a with rows := none, data := none }, ?_, rfl, rfl, rfl, rfl, rfl, rfl⟩
  unfold array2D.freeOp
  simp only [hd1, hd2]

/-- C1 counterexample: after `array2D<int> a(1, 1); a.free();` the shape
queries still report `getWidth() == 1`, `getHeight() == 1` and
`bool(a) == true` — not the `0 / 0 / false` the claim requires. -/
theorem C1_counterexample :
    (array2D.freeOp (array2D.mkSized (α := Int) Heap.empty 1 1).1
        (array2D.mkSized (α := Int) Heap.empty 1 1).2).map
      (fun r => (r.2.getWidth, r.2.getHeight, r.2.toBool)) = some (1, 1, true) ∧
    ¬ ((array2D.freeOp (array2D.mkSized (α := Int) Heap.empty 1 1).1
        (array2D.mkSized (α := Int) Heap.empty 1 1).2).map
      (fun r => (r.2.getWidth, r.2.getHeight, r.2.toBool)) = some (0, 0, false)) := by
  constructor
  · rfl
  · decide

/-- C1 witness: the amended theorem applied to the concrete owning state
`array2D<int>(1, 1)`. -/
theorem C1_witness :
    ∃ hp' a', (array2D.mkSized (α := Int) Heap.empty 1 1).2.freeOp
        (array2D.mkSized (α := Int) Heap.empty 1 1).1 = some (hp', a') ∧
      a'.data = none ∧ a'.rows = none ∧
      a'.getWidth = (array2D.mkSized (α := Int) Heap.empty 1 1).2.getWidth ∧
      a'.getHeight = (array2D.mkSized (α := Int) Heap.empty 1 1).2.getHeight ∧
      a'.toBool = (array2D.mkSized (α := Int) Heap.empty 1 1).2.toBool ∧
      a'.freeOp hp' = some (hp', a') :=
  C1_free_nulls_pointers_idempotent_shape_kept
    ⟨fun did h => by
      have h0 : some 0 = some did := h
      cases h0
      exact ⟨List.replicate 1 (default : Int), rfl⟩,
     fun rid h => by
      have h0 : some 1 = some rid := h
      cases h0
      exact ⟨[⟨0, 0⟩], rfl⟩⟩

/-! ## Claim C9 -/

/-- C9: for a referencing instance (null `data`, live row table), both
`free()` and the destructor succeed and leave every element-buffer
allocation in the heap exactly as it was: no externally owned element
memory is freed or modified (only the instance's own row table goes away). -/
theorem C9_ref_release_preserves_external {hp : Heap α} {a : array2D}
    (hR : RefInv hp a) :
    (∃ hp' a', a.freeOp hp = some (hp', a') ∧ hp'.dataMem = hp.dataMem ∧
      a'.data = none ∧ a'.rows = none) ∧
    (∃ hp'', a.destroy hp = some hp'' ∧ hp''.dataMem = hp.dataMem) := by
  obtain ⟨hd, rid, rtab, hr, htab⟩ := hR
  constructor
  · refine ⟨hp.setRows rid none, { a with rows := none, data := none }, ?_, rfl, rfl, rfl⟩
    unfold array2D.freeOp
    rw [hd]
    simp [Heap.deleteData, Heap.deleteRows, hr, htab]
  · refine ⟨hp.setRows rid none, ?_, rfl⟩
    unfold array2D.destroy
    rw [hd]
    simp [Heap.deleteData, Heap.deleteRows, hr, htab]

/-- C9 witness: a `BYREFERENCE` view of one external row (the block
holding `[3, 4]`), freed and destroyed; the external block is untouched. -/
theorem C9_witness :
    (∃ hp' a',
      array2D.freeOp (α := Int)
          ((Heap.empty.allocData [3, 4]).2.allocRows [⟨0, 0⟩]).2
          ⟨2, 1, some 1, none⟩ = some (hp', a') ∧
      hp'.dataMem = ((Heap.empty.allocData (α := Int) [3, 4]).2.allocRows [⟨0, 0⟩]).2.dataMem ∧
      a'.data = none ∧ a'.rows = none) ∧
    (∃ hp'',
      array2D.destroy (α := Int)
          ((Heap.empty.allocData [3, 4]).2.allocRows [⟨0, 0⟩]).2
          ⟨2, 1, some 1, none⟩ = some hp'' ∧
      hp''.dataMem = ((Heap.empty.allocData (α := Int) [3, 4]).2.allocRows [⟨0, 0⟩]).2.dataMem) :=
  C9_ref_release_preserves_external ⟨rfl, 1, [⟨0, 0⟩], rfl, rfl⟩

/-! ## Claim C10 -/

/-- C10: `fill` stores only through the flat `data` pointer (the row tables
of the heap are untouched), so it succeeds exactly on instances that own a
live, large-enough buffer or are empty: for an owning instance it returns a
heap, for an empty shape it is a no-op, and for every referencing instance
(null `data`) with `width*height > 0` the very first store dereferences the
null pointer and faults. -/
theorem C10_fill_requires_ownership {hp : Heap α} {a : array2D} (v : α) :
    (∀ off, OwnInv hp a off → ∃ hp', a.fill hp v = some hp' ∧ hp'.rowMem = hp.rowMem) ∧
    (RefInv hp a → 0 < a.width * a.height → a.fill hp v = none) ∧
    (a.width * a.height = 0 → a.fill hp v = some hp) := by
  refine ⟨?_, ?_, ?_⟩
  · intro off hI
    obtain ⟨did, rid, rtab, buf, hd, hr, htab, hbuf, h1, h2, h3⟩ := hI
    unfold array2D.fill
    by_cases h0 : a.width * a.height = 0
    · exact ⟨hp, by rw [if_pos h0], rfl⟩
    · rw [if_neg h0]
      simp only [hd, hbuf]
      rw [if_pos (by omega)]
      exact ⟨_, rfl, rfl⟩
  · intro hR h0
    obtain ⟨hd, _, _, _, _⟩ := hR
    unfold array2D.fill
    rw [if_neg (by omega)]
    simp only [hd]
  · intro h0
    unfold array2D.fill
    rw [if_pos h0]

/-- C10 witness: `fill` succeeds on the owning `array2D<int>(2, 2)` and
faults on a 2-by-1 `BYREFERENCE` view. -/
theorem C10_witness :
    (∃ hp', array2D.fill (array2D.mkSized (α := Int) Heap.empty 2 2).1
        (array2D.mkSized (α := Int) Heap.empty 2 2).2 7 = some hp' ∧
        hp'.rowMem = (array2D.mkSized (α := Int) Heap.empty 2 2).1.rowMem) ∧
    array2D.fill (α := Int) ((Heap.empty.allocData [3, 4]).2.allocRows [⟨0, 0⟩]).2
      ⟨2, 1, some 1, none⟩ 7 = none := by
  constructor
  · exact (C10_fill_requires_ownership 7).1 0
      ⟨0, 1, [⟨0, 0⟩, ⟨0, 2⟩], [0, 0, 0, 0], rfl, rfl, rfl, rfl, by decide, by decide,
        by decide⟩
  · exact (C10_fill_requires_ownership 7).2.1 ⟨rfl, 1, [⟨0, 0⟩], rfl, rfl⟩ (by decide)

/-! ## Claim C6 -/

/-- C6: on an owning instance, for valid coordinates `(x, y)`, the store
`array[y][x] = v` succeeds; reading `array[y][x]` afterwards yields `v`,
and every other valid coordinate reads exactly what it read before. -/
theorem C6_write_read_frame {hp : Heap α} {a : array2D} {off : Nat} (v : α)
    (hI : OwnInv hp a off) {y x : Nat} (hy : y < a.height) (hx : x < a.width) :
    ∃ hp', a.aset hp y x v = some hp' ∧
      a.aget hp' y x = some v ∧
      ∀ y' x', y' < a.height → x' < a.width → ¬(y' = y ∧ x' = x) →
        a.aget hp' y' x' = a.aget hp y' x' := by
  obtain ⟨did, buf, hd, hbuf, hbound, hset⟩ := hI.aset_flat hy hx v
  have hI' : OwnInv (hp.setData did (some (buf.set (off + a.width * y + x) v))) a off :=
    hI.setData_update hd hbuf (by simp)
  refine ⟨_, hset, ?_, ?_⟩
  · obtain ⟨did2, buf2, hd2, hbuf2, hbound2, hget⟩ := hI'.aget_flat hy hx
    have hdid : did2 = did := by rw [hd] at hd2; exact (Option.some.inj hd2).symm
    subst hdid
    rw [Heap.dataMem_setData_self] at hbuf2
    have hbb : buf2 = buf.set (off + a.width * y + x) v := (Option.some.inj hbuf2).symm
    subst hbb
    rw [hget, List.getElem?_set, if_pos rfl, if_pos hbound]
  · intro y' x' hy' hx' hne
    obtain ⟨did3, buf3, hd3, hbuf3, hbound3, hget3⟩ := hI'.aget_flat hy' hx'
    obtain ⟨did4, buf4, hd4, hbuf4, hbound4, hget4⟩ := hI.aget_flat hy' hx'
    have hdid3 : did3 = did := by rw [hd] at hd3; exact (Option.some.inj hd3).symm
    have hdid4 : did4 = did := by rw [hd] at hd4; exact (Option.some.inj hd4).symm
    subst hdid3; subst hdid4
    rw [Heap.dataMem_setData_self] at hbuf3
    have hb3 : buf3 = buf.set (off + a.width * y + x) v := (Option.some.inj hbuf3).symm
    have hb4 : buf4 = buf := by rw [hbuf] at hbuf4; exact (Option.some.inj hbuf4).symm
    subst hb3; subst hb4
    rw [hget3, hget4, List.getElem?_set]
    have hidx : a.width * y + x ≠ a.width * y' + x' :=
      rowmajor_inj hx hx' (fun hc => hne ⟨hc.1.symm, hc.2.symm⟩)
    rw [if_neg (by omega)]

/-- C6 witness: on `array2D<int>(2, 2)`, writing `7` at `(x, y) = (1, 0)`
reads back `7` there and leaves `(0, 0)`, `(0, 1)`, `(1, 1)` unchanged. -/
theorem C6_witness :
    ∃ hp', array2D.aset (array2D.mkSized (α := Int) Heap.empty 2 2).1
        (array2D.mkSized (α := Int) Heap.empty 2 2).2 0 1 7 = some hp' ∧
      array2D.aget hp' (array2D.mkSized (α := Int) Heap.empty 2 2).2 0 1 = some 7 ∧
      ∀ y' x', y' < (array2D.mkSized (α := Int) Heap.empty 2 2).2.height →
        x' < (array2D.mkSized (α := Int) Heap.empty 2 2).2.width →
        ¬(y' = 0 ∧ x' = 1) →
        array2D.aget hp' (array2D.mkSized (α := Int) Heap.empty 2 2).2 y' x' =
          array2D.aget (array2D.mkSized (α := Int) Heap.empty 2 2).1
            (array2D.mkSized (α := Int) Heap.empty 2 2).2 y' x' :=
  C6_write_read_frame 7
    ((⟨0, 1, [⟨0, 0⟩, ⟨0, 2⟩], [0, 0, 0, 0], rfl, rfl, rfl, rfl, by decide, by decide,
      by decide⟩ :
      OwnInv (array2D.mkSized (α := Int) Heap.empty 2 2).1
        (array2D.mkSized (α := Int) Heap.empty 2 2).2 0))
    (by decide) (by decide)

/-- `clearRegion` (the `memset` of `operator()`) touches no row table. -/
theorem clearRegion_rowMem [Zero α] (hp : Heap α) (a : array2D) (offset : Nat) :
    (a.clearRegion hp offset).rowMem = hp.rowMem := by
  unfold array2D.clearRegion
  cases hd : a.data with
  | none => simp
  | some did =>
    cases hb : hp.dataMem did with
    | none => simp [hb]
    | some buf => simp [hb]

/-- `resize` returns the instance computed by `ar_realloc` (clearing only
touches buffer contents). -/
theorem resize_snd [Inhabited α] [Zero α] (hp : Heap α) (a : array2D)
    (w h flags offset : Nat) :
    (array2D.resize hp a w h flags offset).2 = (a.ar_realloc hp w h offset).2 := by
  unfold array2D.resize
  by_cases hc : flags &&& ARRAY2D_CLEAR_DATA ≠ 0 <;> simp [hc]

/-- `resize` leaves the row tables exactly as `ar_realloc` left them. -/
theorem resize_rowMem [Inhabited α] [Zero α] (hp : Heap α) (a : array2D)
    (w h flags offset : Nat) :
    (array2D.resize hp a w h flags offset).1.rowMem =
      (a.ar_realloc hp w h offset).1.rowMem := by
  unfold array2D.resize
  by_cases hc : flags &&& ARRAY2D_CLEAR_DATA ≠ 0 <;> simp [hc, clearRegion_rowMem]

/-! ## Claim C5 -/

/-- C5 (amended): after every resize (from any valid state) and after every
sized construction, the row-pointer invariant holds — `rows[i]` is the
`data` pointer shifted by the per-instance offset plus `width * i` — and
consequently, on an owning instance the element `array[y][x]` coincides
with the flat `data` view at linear offset `offset + (y * width + x)` (the
per-instance offset shifts the linear offset; the unshifted `y * width + x`
of the original claim is wrong for nonzero offsets). -/
theorem C5_rows_invariant_and_offset_flat_view [Inhabited α] [Zero α] :
    (∀ (hp : Heap α) (a : array2D), hp.WF → Valid hp a → ∀ w h flags offset,
      ∃ rid did rtab,
        (array2D.resize hp a w h flags offset).2.rows = some rid ∧
        (array2D.resize hp a w h flags offset).2.data = some did ∧
        (array2D.resize hp a w h flags offset).1.rowMem rid = some rtab ∧
        ∀ i, i < h → rtab[i]? = some ⟨did, offset + w * i⟩) ∧
    (∀ (hp : Heap α) (w h flags : Nat),
      ∃ rid did rtab,
        (array2D.mkSized hp w h flags).2.rows = some rid ∧
        (array2D.mkSized hp w h flags).2.data = some did ∧
        (array2D.mkSized hp w h flags).1.rowMem rid = some rtab ∧
        ∀ i, i < h → rtab[i]? = some ⟨did, i * w⟩) ∧
    (∀ (hp : Heap α) (a : array2D) (off : Nat), OwnInv hp a off →
      ∀ y x, y < a.height → x < a.width →
        ∃ did, a.data = some did ∧
          a.aget hp y x = readPtr hp ⟨did, off + (y * a.width + x)⟩) := by
  refine ⟨?_, ?_, ?_⟩
  · intro hp a hW hV w h flags offset
    obtain ⟨_, _, _, _, rid, did, rtab, buf, hrows, hdata, htab, hbuf, hlen, hpt, _⟩ :=
      ar_realloc_post hW hV w h offset
    refine ⟨rid, did, rtab, ?_, ?_, ?_, hpt⟩
    · rw [resize_snd]; exact hrows
    · rw [resize_snd]; exact hdata
    · rw [resize_rowMem]; exact htab
  · intro hp w h flags
    refine ⟨hp.nextId + 1, hp.nextId,
      (List.range h).map (fun i => ⟨hp.nextId, i * w⟩), rfl, rfl, ?_, ?_⟩
    · have := Heap.allocRows_rowMem_self
        (hp.allocData (if flags &&& ARRAY2D_CLEAR_DATA ≠ 0 then List.replicate (h * w) 0
          else List.replicate (h * w) default)).2
        ((List.range h).map (fun i => ⟨hp.nextId, i * w⟩))
      simpa [array2D.mkSized] using this
    · intro i hi
      exact getElem?_range_map _ hi
  · intro hp a off hI y x hy hx
    obtain ⟨did, buf, hd, hbuf, hbound, hget⟩ := hI.aget_flat hy hx
    refine ⟨did, hd, ?_⟩
    rw [hget]
    unfold readPtr
    simp only [hbuf]
    rw [Nat.mul_comm y a.width]
    rw [Nat.add_assoc]

/-- C5 counterexample: after `a(1, 1, 0, 1)` (resize with offset 1) and the
write `a[0][0] = 5`, the flat view at linear offset `y*w + x = 0` reads the
padding value `0`, not the element value `5 = a[0][0]`. -/
theorem C5_counterexample :
    (array2D.aset (array2D.resize (α := Int) Heap.empty array2D.mkEmpty 1 1 0 1).1
        (array2D.resize (α := Int) Heap.empty array2D.mkEmpty 1 1 0 1).2 0 0 5).map
      (fun hp' =>
        (decide (array2D.aget hp'
            (array2D.resize (α := Int) Heap.empty array2D.mkEmpty 1 1 0 1).2 0 0 =
          readPtr hp' ⟨1, 0⟩),
         array2D.aget hp'
            (array2D.resize (α := Int) Heap.empty array2D.mkEmpty 1 1 0 1).2 0 0,
         readPtr hp' ⟨1, 0⟩)) = some (false, some 5, some 0) ∧
    (array2D.resize (α := Int) Heap.empty array2D.mkEmpty 1 1 0 1).2.data = some 1 := by
  constructor
  · rfl
  · rfl

/-- C5 witness: the amended theorem applied at concrete inputs — a resize
of an empty `array2D<int>` to `2 x 2` with offset `3`, the sized
construction `array2D<int>(2, 2)`, and the flat-view identity on the owning
`2 x 2` instance at `(y, x) = (1, 1)`. -/
theorem C5_witness :
    (∃ rid did rtab,
      (array2D.resize (α := Int) Heap.empty array2D.mkEmpty 2 2 0 3).2.rows = some rid ∧
      (array2D.resize (α := Int) Heap.empty array2D.mkEmpty 2 2 0 3).2.data = some did ∧
      (array2D.resize (α := Int) Heap.empty array2D.mkEmpty 2 2 0 3).1.rowMem rid = some rtab ∧
      ∀ i, i < 2 → rtab[i]? = some ⟨did, 3 + 2 * i⟩) ∧
    (∃ rid did rtab,
      (array2D.mkSized (α := Int) Heap.empty 2 2 0).2.rows = some rid ∧
      (array2D.mkSized (α := Int) Heap.empty 2 2 0).2.data = some did ∧
      (array2D.mkSized (α := Int) Heap.empty 2 2 0).1.rowMem rid = some rtab ∧
      ∀ i, i < 2 → rtab[i]? = some ⟨did, i * 2⟩) ∧
    (∃ did,
      (array2D.mkSized (α := Int) Heap.empty 2 2).2.data = some did ∧
      array2D.aget (array2D.mkSized (α := Int) Heap.empty 2 2).1
          (array2D.mkSized (α := Int) Heap.empty 2 2).2 1 1 =
        readPtr (array2D.mkSized (α := Int) Heap.empty 2 2).1
          ⟨did, 0 + (1 * (array2D.mkSized (α := Int) Heap.empty 2 2).2.width + 1)⟩) :=
  ⟨C5_rows_invariant_and_offset_flat_view.1 Heap.empty array2D.mkEmpty Heap.WF_empty
      ⟨fun did h => Option.noConfusion h, fun rid h => Option.noConfusion h⟩ 2 2 0 3,
   C5_rows_invariant_and_offset_flat_view.2.1 Heap.empty 2 2 0,
   C5_rows_invariant_and_offset_flat_view.2.2 (array2D.mkSized (α := Int) Heap.empty 2 2).1
      (array2D.mkSized (α := Int) Heap.empty 2 2).2 0
      ⟨0, 1, [⟨0, 0⟩, ⟨0, 2⟩], [0, 0, 0, 0], rfl, rfl, rfl, rfl, by decide, by decide,
        by decide⟩
      1 1 (by decide) (by decide)⟩

theorem rowsPhase_nextId_mono [Inhabited α] (hp : Heap α) (a : array2D) (h : Nat) :
    hp.nextId ≤ (rowsPhase hp a h).1.nextId := by
  cases hrows : a.rows with
  | none => rw [rowsPhase_null hp hrows]; simp
  | some rid =>
    by_cases hR : a.height < h ∨ 4 * h < a.height
    · rw [rowsPhase_fresh hp hrows hR]; simp
    · rw [rowsPhase_keep hp hrows hR]

/-! ## Claim C2 -/

/-- C2 (amended): for an owning instance, resizing to `(w', h')` keeps the
identity of the flat `data` allocation if and only if the new element count
is at most the old one and not below the integer quotient
`(width*height) / 4` — the source compares `h*w < width*height/4` with
truncating division, NOT `4*h*w < width*height`; outside that band the
buffer is a fresh allocation.  The row table is governed by the height
band `h' ≤ h` and `4*h' ≥ h` exactly as claimed. -/
theorem C2_resize_reuse_hysteresis [Inhabited α] [Zero α] {hp : Heap α} {a : array2D}
    {rid did : Nat} (hW : hp.WF) (hrows : a.rows = some rid) (hdata : a.data = some did)
    (hlive : ∃ buf, hp.dataMem did = some buf)
    (hliver : ∃ tab, hp.rowMem rid = some tab)
    (w h flags offset : Nat) :
    ((h * w ≤ a.width * a.height ∧ ¬(h * w < a.width * a.height / 4)) →
      (array2D.resize hp a w h flags offset).2.data = some did) ∧
    ((a.width * a.height < h * w ∨ h * w < a.width * a.height / 4) →
      ∃ d, (array2D.resize hp a w h flags offset).2.data = some d ∧ d ≠ did ∧
        hp.nextId ≤ d) ∧
    ((h ≤ a.height ∧ a.height ≤ 4 * h) →
      (array2D.resize hp a w h flags offset).2.rows = some rid) ∧
    ((a.height < h ∨ 4 * h < a.height) →
      ∃ r, (array2D.resize hp a w h flags offset).2.rows = some r ∧ r ≠ rid ∧
        hp.nextId ≤ r) := by
  obtain ⟨buf, hbuf⟩ := hlive
  obtain ⟨tab, htab⟩ := hliver
  have hdlt : did < hp.nextId := hW.live_data hbuf
  have hrlt : rid < hp.nextId := hW.live_rows htab
  have hsnd : (array2D.resize hp a w h flags offset).2 =
      ⟨w, h, some (rowsPhase hp a h).2,
        some (dataPhase (rowsPhase hp a h).1 a w h offset).2⟩ :=
    resize_snd hp a w h flags offset
  refine ⟨?_, ?_, ?_, ?_⟩
  · intro hband
    have hD : ¬(a.width * a.height < h * w ∨ h * w < a.width * a.height / 4) := by omega
    rw [hsnd]
    simp only [dataPhase_keep (rowsPhase hp a h).1 hdata offset hD]
  · intro hD
    rw [hsnd]
    simp only [dataPhase_fresh (rowsPhase hp a h).1 hdata offset hD]
    have hmono : hp.nextId ≤ (rowsPhase hp a h).1.nextId := rowsPhase_nextId_mono hp a h
    exact ⟨(rowsPhase hp a h).1.nextId, rfl, by omega, hmono⟩
  · intro hband
    have hR : ¬(a.height < h ∨ 4 * h < a.height) := by omega
    rw [hsnd]
    simp only [rowsPhase_keep hp hrows hR]
  · intro hR
    rw [hsnd]
    simp only [rowsPhase_fresh hp hrows hR]
    exact ⟨hp.nextId, rfl, by omega, le_refl _⟩

/-- C2 counterexample: an owning `array2D<int>` of shape `(w, h) = (10, 1)`
resized to `(2, 1)` violates the claimed band on the element count —
`4 * (1*2) = 8 < 10 = w*h`, so the claim demands a freshly allocated flat
buffer — yet the code compares `2 < 10/4 = 2` (truncating), keeps the
allocation, and the flat view stays pointer-identical (block id 1). -/
theorem C2_counterexample :
    (array2D.resize (α := Int)
        (array2D.resize (α := Int) Heap.empty array2D.mkEmpty 10 1).1
        (array2D.resize (α := Int) Heap.empty array2D.mkEmpty 10 1).2 2 1).2.data =
      (array2D.resize (α := Int) Heap.empty array2D.mkEmpty 10 1).2.data ∧
    (array2D.resize (α := Int) Heap.empty array2D.mkEmpty 10 1).2.data = some 1 ∧
    1 ≤ 1 ∧ 1 ≤ 4 * 1 ∧ 4 * (1 * 2) < 10 * 1 := by
  refine ⟨?_, rfl, by decide, by decide, by decide⟩
  rfl

/-- C2 witness: on the owning `(10, 1)` instance, resizing to `(2, 1)`
(inside the code band) keeps data block 1; resizing to `(20, 2)` (grow)
yields a fresh block distinct from 1. -/
theorem C2_witness :
    ((array2D.resize (α := Int)
        (array2D.resize (α := Int) Heap.empty array2D.mkEmpty 10 1).1
        (array2D.resize (α := Int) Heap.empty array2D.mkEmpty 10 1).2 2 1 0 0).2.data =
      some 1) ∧
    ∃ d, (array2D.resize (α := Int)
        (array2D.resize (α := Int) Heap.empty array2D.mkEmpty 10 1).1
        (array2D.resize (α := Int) Heap.empty array2D.mkEmpty 10 1).2 20 2 0 0).2.data =
      some d ∧ d ≠ 1 ∧ 2 ≤ d := by
  have hV : Valid (α := Int) Heap.empty array2D.mkEmpty :=
    ⟨fun _ h => Option.noConfusion h, fun _ h => Option.noConfusion h⟩
  have hW : (array2D.resize (α := Int) Heap.empty array2D.mkEmpty 10 1).1.WF :=
    (ar_realloc_post Heap.WF_empty hV 10 1 0).1
  constructor
  · exact (C2_resize_reuse_hysteresis
      (a := (array2D.resize (α := Int) Heap.empty array2D.mkEmpty 10 1).2) hW
      rfl rfl ⟨List.replicate 10 0, rfl⟩ ⟨[⟨1, 0⟩], rfl⟩ 2 1 0 0).1 (by decide)
  · exact (C2_resize_reuse_hysteresis
      (a := (array2D.resize (α := Int) Heap.empty array2D.mkEmpty 10 1).2) hW
      rfl rfl ⟨List.replicate 10 0, rfl⟩ ⟨[⟨1, 0⟩], rfl⟩ 20 2 0 0).2.1 (by decide)

theorem clearRegion_eq [Zero α] {hp : Heap α} {a : array2D} {did : Nat} {buf : List α}
    (hd : a.data = some did) (hbuf : hp.dataMem did = some buf) (offset : Nat) :
    a.clearRegion hp offset =
      hp.setData did
        (some (setAll buf 0 ((List.range (a.width * a.height)).map (· + offset)))) := by
  unfold array2D.clearRegion
  simp only [hd, hbuf]

/-- On a null `data` pointer, `ar_realloc` leaves every other element block
untouched. -/
theorem ar_realloc_dataMem_pres [Inhabited α] (hp : Heap α) (a : array2D)
    (hd : a.data = none) (w h offset : Nat) :
    ∀ id, id ≠ (rowsPhase hp a h).1.nextId →
      (a.ar_realloc hp w h offset).1.dataMem id = hp.dataMem id := by
  intro id hne
  show ((dataPhase (rowsPhase hp a h).1 a w h offset).1.writeRowsHead (rowsPhase hp a h).2
      _).dataMem id = hp.dataMem id
  rw [Heap.writeRowsHead_dataMem]
  simp only [dataPhase_null _ hd]
  rw [Heap.allocData_dataMem_ne _ _ hne, rowsPhase_dataMem]

/-- On a null `data` pointer, the buffer `ar_realloc` allocates is fresh. -/
theorem ar_realloc_data_fresh_id [Inhabited α] (hp : Heap α) (a : array2D)
    (hd : a.data = none) (w h offset : Nat) :
    (a.ar_realloc hp w h offset).2.data = some (rowsPhase hp a h).1.nextId ∧
    hp.nextId ≤ (rowsPhase hp a h).1.nextId := by
  constructor
  · show some (dataPhase (rowsPhase hp a h).1 a w h offset).2 = _
    simp only [dataPhase_null _ hd]
  · exact rowsPhase_nextId_mono hp a h

/-- On a null `rows` pointer, `ar_realloc` touches no other row table. -/
theorem ar_realloc_rowMem_pres [Inhabited α] (hp : Heap α) (a : array2D)
    (hr : a.rows = none) (w h offset : Nat) :
    ∀ id, id ≠ hp.nextId →
      (a.ar_realloc hp w h offset).1.rowMem id = hp.rowMem id := by
  intro id hne
  show ((dataPhase (rowsPhase hp a h).1 a w h offset).1.writeRowsHead (rowsPhase hp a h).2
      _).rowMem id = hp.rowMem id
  have hrid : (rowsPhase hp a h).2 = hp.nextId := by rw [rowsPhase_null hp hr]
  rw [Heap.writeRowsHead_rowMem_ne _ _ (hrid ▸ hne), dataPhase_rowMem]
  simp only [rowsPhase_null hp hr]
  exact Heap.allocRows_rowMem_ne hp _ hne

/-- After resizing an instance whose `data` is null (an empty or a
referencing instance), the result is a well-formed owning instance over a
FRESH buffer, every pre-existing element block is untouched, and — when the
instance also had a null `rows` — every pre-existing row table is untouched. -/
theorem resize_data_null_post [Inhabited α] [Zero α] {hp : Heap α} {a : array2D}
    (hW : hp.WF) (hV : Valid hp a) (hd : a.data = none) (w h flags offset : Nat) :
    (array2D.resize hp a w h flags offset).1.WF ∧
    (array2D.resize hp a w h flags offset).2.width = w ∧
    (array2D.resize hp a w h flags offset).2.height = h ∧
    OwnInv (array2D.resize hp a w h flags offset).1
      (array2D.resize hp a w h flags offset).2 offset ∧
    hp.nextId ≤ (array2D.resize hp a w h flags offset).1.nextId ∧
    (∃ did, (array2D.resize hp a w h flags offset).2.data = some did ∧
      hp.nextId ≤ did) ∧
    (∀ id, id < hp.nextId →
      (array2D.resize hp a w h flags offset).1.dataMem id = hp.dataMem id) ∧
    (a.rows = none → ∀ id, id < hp.nextId →
      (array2D.resize hp a w h flags offset).1.rowMem id = hp.rowMem id) := by
  obtain ⟨hW', hw', hh', hnx, rid, did, rtab, buf, hrows, hdata, htab, hbuf, hlen, hpt,
    hbufCase⟩ := ar_realloc_post hW hV w h offset
  have hfresh := ar_realloc_data_fresh_id hp a hd w h offset
  have hdid : did = (rowsPhase hp a h).1.nextId := by
    rw [hfresh.1] at hdata
    exact (Option.some.inj hdata).symm
  have hdidge : hp.nextId ≤ did := hdid ▸ hfresh.2
  have hbuffresh : buf = List.replicate (h * w + offset) default := by
    rcases hbufCase with hb | ⟨hb, _⟩
    · exact hb
    · rw [hd] at hb; exact absurd hb (by simp)
  have hOwn : OwnInv (a.ar_realloc hp w h offset).1 (a.ar_realloc hp w h offset).2 offset := by
    refine ⟨did, rid, rtab, buf, hdata, hrows, htab, hbuf, ?_, ?_, ?_⟩
    · rw [hh']; exact hlen
    · rw [hw', hh', hbuffresh]
      simp [List.length_replicate]
      have hmc : w * h = h * w := Nat.mul_comm w h
      omega
    · intro i hi
      rw [hw']
      exact hpt i (by rw [hh'] at hi; exact hi)
  by_cases hc : flags &&& ARRAY2D_CLEAR_DATA ≠ 0
  · have hres : array2D.resize hp a w h flags offset =
        ((a.ar_realloc hp w h offset).2.clearRegion (a.ar_realloc hp w h offset).1 offset,
          (a.ar_realloc hp w h offset).2) := by
      unfold array2D.resize
      rw [if_pos hc]
    have hclear :
        (a.ar_realloc hp w h offset).2.clearRegion (a.ar_realloc hp w h offset).1 offset =
          (a.ar_realloc hp w h offset).1.setData did
            (some (setAll buf 0
              ((List.range ((a.ar_realloc hp w h offset).2.width *
                (a.ar_realloc hp w h offset).2.height)).map (· + offset)))) :=
      clearRegion_eq hdata hbuf offset
    rw [hres, hclear]
    have hdlt : did < (a.ar_realloc hp w h offset).1.nextId := hW'.live_data hbuf
    refine ⟨hW'.setData did hdlt _, hw', hh', ?_, by simpa using hnx, ⟨did, hdata, hdidge⟩,
      ?_, ?_⟩
    · exact hOwn.setData_update hdata hbuf (by rw [setAll_length])
    · intro id hid
      rw [Heap.dataMem_setData_ne _ _ (by omega)]
      exact ar_realloc_dataMem_pres hp a hd w h offset id (by omega)
    · intro hr id hid
      rw [Heap.rowMem_setData]
      exact ar_realloc_rowMem_pres hp a hr w h offset id (by omega)
  · have hres : array2D.resize hp a w h flags offset = a.ar_realloc hp w h offset := by
      unfold array2D.resize
      rw [if_neg hc]
    rw [hres]
    refine ⟨hW', hw', hh', hOwn, hnx, ⟨did, hdata, hdidge⟩, ?_, ?_⟩
    · intro id hid
      exact ar_realloc_dataMem_pres hp a hd w h offset id (by omega)
    · intro hr id hid
      exact ar_realloc_rowMem_pres hp a hr w h offset id (by omega)

/-! ## Claim C3 -/

/-- C3 (amended): resizing a referencing instance DOES turn it into an
owning instance — `ar_realloc` sees the null `data` pointer and allocates a
fresh owned buffer, so the result satisfies the owning invariant — but the
instance never takes ownership of the externally owned memory: the new
buffer is a fresh allocation (its id is none of the pre-existing blocks)
and every pre-existing element block is left untouched. -/
theorem C3_ref_resize_becomes_owning_fresh [Inhabited α] [Zero α] {hp : Heap α}
    {a : array2D} (hW : hp.WF) (hR : RefInv hp a) (w h flags offset : Nat) :
    OwnInv (array2D.resize hp a w h flags offset).1
      (array2D.resize hp a w h flags offset).2 offset ∧
    (∃ did, (array2D.resize hp a w h flags offset).2.data = some did ∧
      hp.nextId ≤ did) ∧
    (∀ id, id < hp.nextId →
      (array2D.resize hp a w h flags offset).1.dataMem id = hp.dataMem id) := by
  obtain ⟨hd, rid, rtab, hr, htab⟩ := hR
  have hV : Valid hp a :=
    ⟨fun did hdd => by rw [hd] at hdd; exact absurd hdd (by simp),
     fun rid' hrr => by
      rw [hr] at hrr
      exact ⟨rtab, (Option.some.inj hrr) ▸ htab⟩⟩
  obtain ⟨_, _, _, hOwn, _, hfresh, hpres, _⟩ := resize_data_null_post hW hV hd w h flags offset
  exact ⟨hOwn, hfresh, hpres⟩

/-- C3 counterexample: a `BYREFERENCE` view (null `data`) over an external
one-element block, resized to `1 x 1`: afterwards `data` is the non-null
fresh block 2 — the instance has become owning, so the
Referencing-to-Owning transition IS reachable through `operator()`. -/
theorem C3_counterexample :
    (array2D.mkFromSource (α := Int) (Heap.empty.allocData [7]).2 1 1 [⟨0, 0⟩]
        ARRAY2D_BYREFERENCE).map (fun r => r.2.data) = some none ∧
    (array2D.mkFromSource (α := Int) (Heap.empty.allocData [7]).2 1 1 [⟨0, 0⟩]
        ARRAY2D_BYREFERENCE).map
      (fun r => (array2D.resize r.1 r.2 1 1).2.data) = some (some 2) := by
  constructor <;> rfl

/-- C3 witness: the amended theorem applied to the concrete referencing
view of the external block `[7]`. -/
theorem C3_witness :
    OwnInv (array2D.resize (α := Int) ((Heap.empty.allocData [7]).2.allocRows [⟨0, 0⟩]).2
        ⟨1, 1, some 1, none⟩ 1 1 0 0).1
      (array2D.resize (α := Int) ((Heap.empty.allocData [7]).2.allocRows [⟨0, 0⟩]).2
        ⟨1, 1, some 1, none⟩ 1 1 0 0).2 0 ∧
    (∃ did, (array2D.resize (α := Int) ((Heap.empty.allocData [7]).2.allocRows [⟨0, 0⟩]).2
        ⟨1, 1, some 1, none⟩ 1 1 0 0).2.data = some did ∧ 2 ≤ did) ∧
    (∀ id, id < 2 →
      (array2D.resize (α := Int) ((Heap.empty.allocData [7]).2.allocRows [⟨0, 0⟩]).2
          ⟨1, 1, some 1, none⟩ 1 1 0 0).1.dataMem id =
        ((Heap.empty.allocData (α := Int) [7]).2.allocRows [⟨0, 0⟩]).2.dataMem id) :=
  C3_ref_resize_becomes_owning_fresh
    (by
      intro id hid
      have hid2 : 2 ≤ id := hid
      constructor
      · show (if id = 0 then some [(7 : Int)] else none) = none
        rw [if_neg (by omega)]
      · show (if id = 1 then some [(⟨0, 0⟩ : Ptr)] else none) = none
        rw [if_neg (by omega)])
    ⟨rfl, 1, [⟨0, 0⟩], rfl, rfl⟩ 1 1 0 0

theorem setAll_mem_congr (l : List α) (v : α) {o1 o2 : List Nat}
    (h : ∀ i, i ∈ o1 ↔ i ∈ o2) : setAll l v o1 = setAll l v o2 := by
  apply List.ext_getElem?
  intro i
  rw [setAll_getElem?, setAll_getElem?]
  by_cases h1 : i ∈ o2
  · simp [(h i).mpr h1, h1]
  · have h2 : i ∉ o1 := fun hc => h1 ((h i).mp hc)
    simp [h1, h2]

/-! ## Claim C7 -/

/-- C7 (amended): on an owning instance whose per-instance offset is zero,
`fill(v)` succeeds and leaves every one of the `w*h` elements equal to `v`;
moreover the resulting state is identical for every order of the element
stores (the data-parallel mode only permutes the stores of the same index
range), so the sequential and parallel modes agree.  The zero-offset
restriction is necessary: `fill` iterates the flat indices
`0 .. w*h - 1`, which for a nonzero offset miss the tail of the active
region. -/
theorem C7_fill_elements_and_mode_agree {hp : Heap α} {a : array2D} (v : α)
    (hI : OwnInv hp a 0) :
    ∃ hp', a.fill hp v = some hp' ∧
      (∀ y x, y < a.height → x < a.width → a.aget hp' y x = some v) ∧
      (∀ order, (∀ i, i ∈ order ↔ i ∈ List.range (a.width * a.height)) →
        a.fillOrd hp v order = some hp') := by
  obtain ⟨did, rid, rtab, buf, hd, hr, htab, hbuf, hlen, hblen, hpt⟩ := hI
  by_cases h0 : a.width * a.height = 0
  · refine ⟨hp, ?_, ?_, ?_⟩
    · unfold array2D.fill
      rw [if_pos h0]
    · intro y x hy hx
      exact absurd h0 (by
        have : 0 < a.width * a.height := Nat.mul_pos (by omega) (by omega)
        omega)
    · intro order horder
      unfold array2D.fillOrd
      rw [if_pos h0]
  · have hwh : a.width * a.height ≤ buf.length := by omega
    refine ⟨hp.setData did (some (setAll buf v (List.range (a.width * a.height)))), ?_, ?_, ?_⟩
    · unfold array2D.fill
      rw [if_neg h0]
      simp only [hd, hbuf]
      rw [if_pos hwh]
    · intro y x hy hx
      have hI' : OwnInv (hp.setData did (some (setAll buf v (List.range (a.width * a.height))))) a 0 :=
        OwnInv.setData_update ⟨did, rid, rtab, buf, hd, hr, htab, hbuf, hlen, hblen, hpt⟩
          hd hbuf (setAll_length buf v _)
      obtain ⟨did2, buf2, hd2, hbuf2, hbound2, hget2⟩ := hI'.aget_flat hy hx
      have hdid : did2 = did := by rw [hd] at hd2; exact (Option.some.inj hd2).symm
      subst hdid
      rw [Heap.dataMem_setData_self] at hbuf2
      have hbb : buf2 = setAll buf v (List.range (a.width * a.height)) :=
        (Option.some.inj hbuf2).symm
      subst hbb
      rw [hget2, setAll_getElem?]
      have hidx : 0 + a.width * y + x < a.width * a.height := by
        have h1 : a.width * (y + 1) ≤ a.width * a.height := Nat.mul_le_mul_left _ hy
        have h2 : a.width * (y + 1) = a.width * y + a.width := by ring
        omega
      rw [if_pos ⟨List.mem_range.mpr hidx, by omega⟩]
    · intro order horder
      unfold array2D.fillOrd
      rw [if_neg h0]
      simp only [hd, hbuf]
      rw [if_pos hwh, setAll_mem_congr buf v horder]

/-- C7 counterexample: the owning instance produced by `a(2, 1, 0, 1)`
(shape `(w, h) = (2, 1)`, offset 1) after `fill(7)`: element `a[0][0]`
becomes `7` but element `a[0][1]` stays `0` — `fill` writes flat indices
`0..w*h-1` and misses the offset-shifted tail of the active region. -/
theorem C7_counterexample :
    (array2D.fill (array2D.resize (α := Int) Heap.empty array2D.mkEmpty 2 1 0 1).1
        (array2D.resize (α := Int) Heap.empty array2D.mkEmpty 2 1 0 1).2 7).map
      (fun hp' =>
        (array2D.aget hp' (array2D.resize (α := Int) Heap.empty array2D.mkEmpty 2 1 0 1).2 0 0,
         array2D.aget hp' (array2D.resize (α := Int) Heap.empty array2D.mkEmpty 2 1 0 1).2 0 1)) =
      some (some 7, some 0) ∧
    (array2D.resize (α := Int) Heap.empty array2D.mkEmpty 2 1 0 1).2.width = 2 ∧
    (array2D.resize (α := Int) Heap.empty array2D.mkEmpty 2 1 0 1).2.height = 1 ∧
    (array2D.resize (α := Int) Heap.empty array2D.mkEmpty 2 1 0 1).2.data = some 1 :=
  ⟨rfl, rfl, rfl, rfl⟩

/-- C7 witness: the amended theorem applied to the owning
`array2D<int>(2, 2)` (offset 0). -/
theorem C7_witness :
    ∃ hp', array2D.fill (array2D.mkSized (α := Int) Heap.empty 2 2).1
        (array2D.mkSized (α := Int) Heap.empty 2 2).2 9 = some hp' ∧
      (∀ y x, y < (array2D.mkSized (α := Int) Heap.empty 2 2).2.height →
        x < (array2D.mkSized (α := Int) Heap.empty 2 2).2.width →
        array2D.aget hp' (array2D.mkSized (α := Int) Heap.empty 2 2).2 y x = some 9) ∧
      (∀ order, (∀ i, i ∈ order ↔ i ∈ List.range
          ((array2D.mkSized (α := Int) Heap.empty 2 2).2.width *
            (array2D.mkSized (α := Int) Heap.empty 2 2).2.height)) →
        array2D.fillOrd (array2D.mkSized (α := Int) Heap.empty 2 2).1
          (array2D.mkSized (α := Int) Heap.empty 2 2).2 9 order = some hp') :=
  C7_fill_elements_and_mode_agree 9
    ((⟨0, 1, [⟨0, 0⟩, ⟨0, 2⟩], [0, 0, 0, 0], rfl, rfl, rfl, rfl, by decide, by decide,
      by decide⟩ :
      OwnInv (array2D.mkSized (α := Int) Heap.empty 2 2).1
        (array2D.mkSized (α := Int) Heap.empty 2 2).2 0))

/-- Validity of an external `h`-row source table for width `w`: each of the
first `h` row pointers exists and points into a live block with at least
`w` elements from its offset. -/
def SrcValid (hp : Heap α) (src : List Ptr) (w h : Nat) : Prop :=
  ∀ i, i < h → ∃ p buf, src[i]? = some p ∧ hp.dataMem p.block = some buf ∧
    p.off + w ≤ buf.length

theorem rowmajor_div {w y x : Nat} (hx : x < w) : (y * w + x) / w = y := by
  have hw : 0 < w := by omega
  rw [Nat.add_comm, Nat.add_mul_div_right x y hw, Nat.div_eq_of_lt hx, Nat.zero_add]

theorem rowmajor_mod {w y x : Nat} (hx : x < w) : (y * w + x) % w = x := by
  rw [Nat.add_comm, Nat.add_mul_mod_self_right, Nat.mod_eq_of_lt hx]

theorem readSrcCell_isSome {hp : Heap α} {src : List Ptr} {w h : Nat}
    (hS : SrcValid hp src w h) {i j : Nat} (hi : i < h) (hj : j < w) :
    (readSrcCell hp src i j).isSome := by
  obtain ⟨p, buf, hsp, hbuf, hbl⟩ := hS i hi
  unfold readSrcCell readPtr
  simp only [hsp, hbuf]
  rw [List.getElem?_eq_getElem (by omega)]
  rfl

/-- The deep-copy branch of creator type 2: `data` is allocated and filled
with the copied cells, then `rows` is allocated over it. -/
theorem mkFromSource_owner_eq [Inhabited α] {hp : Heap α} {src : List Ptr}
    {w h flags : Nat} (hflag : flags &&& ARRAY2D_BYREFERENCE = 0) {buf0 : List α}
    (hbuf0 : omap (fun k => readSrcCell hp src (k / w) (k % w)) (List.range (h * w)) =
      some buf0) :
    array2D.mkFromSource hp w h src flags =
      some (((hp.allocData buf0).2.allocRows
          ((List.range h).map (fun i => ⟨hp.nextId, i * w⟩))).2,
        ⟨w, h, some (hp.nextId + 1), some hp.nextId⟩) := by
  unfold array2D.mkFromSource
  rw [if_pos hflag]
  simp only [hbuf0]
  rfl

/-- The `BYREFERENCE` branch of creator type 2: only a row table holding
the source row pointers is allocated; `data` stays null. -/
theorem mkFromSource_byref_eq [Inhabited α] {hp : Heap α} {src : List Ptr}
    {w h flags : Nat} (hflag : ¬(flags &&& ARRAY2D_BYREFERENCE = 0)) {rtab1 : List Ptr}
    (hr : omap (fun i => src[i]?) (List.range h) = some rtab1) :
    array2D.mkFromSource hp w h src flags =
      some ((hp.allocRows rtab1).2, ⟨w, h, some hp.nextId, none⟩) := by
  unfold array2D.mkFromSource
  rw [if_neg hflag]
  simp only [hr]
  rfl

/-! ## Claim C4 -/

/-- C4: construction from an external `h`-row source table. Without
`BYREFERENCE` the constructor deep-copies: every `array[y][x]` equals
`source[y][x]` as read at construction time, a later store through any
pre-existing external pointer is invisible through the array, and a later
store through the array is invisible through the source cells.  With
`BYREFERENCE` the source row pointers are stored directly (`data` stays
null): `array[y][x]` is the source cell itself, and a store to
`source[y][x]` afterwards is read back as `array[y][x]`. -/
theorem C4_copy_vs_reference_semantics [Inhabited α] {hp : Heap α} {src : List Ptr}
    {w h : Nat} (hW : hp.WF) (hS : SrcValid hp src w h) (flags : Nat) :
    (flags &&& ARRAY2D_BYREFERENCE = 0 →
      ∃ hp' a, array2D.mkFromSource hp w h src flags = some (hp', a) ∧
        (∀ y x, y < h → x < w → a.aget hp' y x = readSrcCell hp src y x) ∧
        (∀ p v hp'', p.block < hp.nextId → writePtr hp' p v = some hp'' →
          ∀ y x, y < h → x < w → a.aget hp'' y x = a.aget hp' y x) ∧
        (∀ y x v hp'', a.aset hp' y x v = some hp'' →
          ∀ i j, i < h → j < w → readSrcCell hp'' src i j = readSrcCell hp' src i j)) ∧
    (flags &&& ARRAY2D_BYREFERENCE ≠ 0 →
      ∃ hp' a, array2D.mkFromSource hp w h src flags = some (hp', a) ∧
        a.data = none ∧
        (∀ y x, y < h → x < w → a.aget hp' y x = readSrcCell hp' src y x) ∧
        (∀ y x p v hp'', y < h → x < w → src[y]? = some p →
          writePtr hp' ⟨p.block, p.off + x⟩ v = some hp'' →
          a.aget hp'' y x = some v)) := by
  constructor
  · intro hflag
    have hsome : ∀ k ∈ List.range (h * w),
        ((fun k => readSrcCell hp src (k / w) (k % w)) k).isSome := by
      intro k hk
      have hk' : k < h * w := List.mem_range.mp hk
      have hw : 0 < w := by
        rcases Nat.eq_zero_or_pos w with h0 | h0
        · subst h0; omega
        · exact h0
      exact readSrcCell_isSome hS
        (by rw [Nat.div_lt_iff_lt_mul hw]; omega) (Nat.mod_lt k hw)
    obtain ⟨buf0, hbuf0⟩ := omap_isSome _ _ hsome
    have hlen0 : buf0.length = h * w := by
      rw [omap_length _ _ _ hbuf0, List.length_range]
    set rtab0 := (List.range h).map (fun i => (⟨hp.nextId, i * w⟩ : Ptr)) with hrt0
    set hpA := ((hp.allocData buf0).2.allocRows rtab0).2 with hhpA
    have heq := mkFromSource_owner_eq hflag hbuf0
    have hrowsA : hpA.rowMem (hp.nextId + 1) = some rtab0 := by
      have := Heap.allocRows_rowMem_self (hp.allocData buf0).2 rtab0
      simpa [hhpA] using this
    have hdataA : hpA.dataMem hp.nextId = some buf0 := by
      rw [hhpA, Heap.allocRows_dataMem]
      exact Heap.allocData_dataMem_self hp buf0
    have hagetA : ∀ hp2 : Heap α, hp2.rowMem (hp.nextId + 1) = some rtab0 →
        ∀ y x, y < h →
        array2D.aget hp2 ⟨w, h, some (hp.nextId + 1), some hp.nextId⟩ y x =
          readPtr hp2 ⟨hp.nextId, y * w + x⟩ := by
      intro hp2 hrows2 y x hy
      unfold array2D.aget
      simp only [hrows2, hrt0]
      rw [getElem?_range_map _ hy]
    refine ⟨hpA, ⟨w, h, some (hp.nextId + 1), some hp.nextId⟩, heq, ?_, ?_, ?_⟩
    · intro y x hy hx
      rw [hagetA hpA hrowsA y x hy]
      unfold readPtr
      simp only [hdataA]
      have hk : y * w + x < h * w := by
        have h1 : (y + 1) * w ≤ h * w := Nat.mul_le_mul_right w hy
        have h2 : (y + 1) * w = y * w + w := by ring
        omega
      obtain ⟨i, hi1, hi2⟩ := omap_getElem? _ _ _ hbuf0 (y * w + x)
        (by rw [List.length_range]; exact hk)
      rw [List.getElem?_range hk] at hi1
      cases hi1
      rw [← hi2, rowmajor_div hx, rowmajor_mod hx]
    · intro p v hp'' hpb hwrite y x hy hx
      have hrows'' : hp''.rowMem (hp.nextId + 1) = some rtab0 := by
        rw [writePtr_rowMem hwrite]
        exact hrowsA
      rw [hagetA hp'' hrows'' y x hy, hagetA hpA hrowsA y x hy]
      exact readPtr_writePtr_ne hwrite (by
        intro hc
        have : hp.nextId = p.block := congrArg Ptr.block hc
        omega)
    · intro y x v hp'' hset i j hi hj
      have hblock : ∃ q : Ptr, q.block = hp.nextId ∧ writePtr hpA q v = some hp'' := by
        unfold array2D.aset at hset
        simp only [hrowsA, hrt0] at hset
        by_cases hy : y < h
        · simp only [getElem?_range_map _ hy] at hset
          exact ⟨⟨hp.nextId, y * w + x⟩, rfl, hset⟩
        · have hnone : ((List.range h).map (fun i => (⟨hp.nextId, i * w⟩ : Ptr)))[y]? = none :=
            List.getElem?_eq_none (by simpa using (by omega : h ≤ y))
          simp only [hnone] at hset
          exact Option.noConfusion hset
      obtain ⟨q, hqb, hqw⟩ := hblock
      obtain ⟨p, bufp, hsp, hbufp, hbl⟩ := hS i hi
      have hpblt : p.block < hp.nextId := by
        apply hW.live_data
        exact hbufp
      unfold readSrcCell
      rw [hsp]
      exact readPtr_writePtr_ne hqw (by
        intro hc
        have hb : p.block = q.block := by rw [← hc]
        omega)
  · intro hflag
    have hsome : ∀ i ∈ List.range h, ((fun i => src[i]?) i).isSome := by
      intro i hi
      obtain ⟨p, buf, hsp, _, _⟩ := hS i (List.mem_range.mp hi)
      simp [hsp]
    obtain ⟨rtab1, hrtab1⟩ := omap_isSome _ _ hsome
    have hentry : ∀ y, y < h → rtab1[y]? = src[y]? := by
      intro y hy
      obtain ⟨i, hi1, hi2⟩ := omap_getElem? _ _ _ hrtab1 y (by rw [List.length_range]; exact hy)
      rw [List.getElem?_range hy] at hi1
      cases hi1
      exact hi2.symm
    have heq : array2D.mkFromSource hp w h src flags =
        some ((hp.allocRows rtab1).2, ⟨w, h, some hp.nextId, none⟩) :=
      mkFromSource_byref_eq hflag hrtab1
    set hpB := (hp.allocRows rtab1).2 with hhpB
    have hrowsB : hpB.rowMem hp.nextId = some rtab1 := Heap.allocRows_rowMem_self hp rtab1
    refine ⟨hpB, ⟨w, h, some hp.nextId, none⟩, heq, rfl, ?_, ?_⟩
    · intro y x hy hx
      obtain ⟨p, bufp, hsp, hbufp, hbl⟩ := hS y hy
      unfold array2D.aget readSrcCell
      simp only [hrowsB, hentry y hy, hsp]
    · intro y x p v hp'' hy hx hsp hwrite
      have hrows'' : hp''.rowMem hp.nextId = some rtab1 := by
        rw [writePtr_rowMem hwrite]
        exact hrowsB
      unfold array2D.aget
      simp only [hrows'', hentry y hy, hsp]
      exact readPtr_writePtr_self hwrite

/-- Example heap for the C4 witness: one external element block `[3, 4]`
(block 0). -/
def exSrcHeap : Heap Int := (Heap.empty.allocData [3, 4]).2

/-- Example source table for the C4 witness: one row pointing at block 0. -/
def exSrc : List Ptr := [⟨0, 0⟩]

theorem exSrcHeap_WF : exSrcHeap.WF := by
  intro id hid
  have hid2 : 1 ≤ id := hid
  constructor
  · show (if id = 0 then some [(3 : Int), 4] else none) = none
    rw [if_neg (by omega)]
  · rfl

theorem exSrc_valid : SrcValid exSrcHeap exSrc 2 1 := by
  intro i hi
  have hi0 : i = 0 := by omega
  subst hi0
  exact ⟨⟨0, 0⟩, [3, 4], rfl, rfl, by decide⟩

/-- C4 witness: the theorem applied to the concrete external source
(`w = 2`, `h = 1`, block `[3, 4]`), once with `flags = 0` (deep copy) and
once with `flags = ARRAY2D_BYREFERENCE`. -/
theorem C4_witness :
    ((0 &&& ARRAY2D_BYREFERENCE = 0 →
      ∃ hp' a, array2D.mkFromSource exSrcHeap 2 1 exSrc 0 = some (hp', a) ∧
        (∀ y x, y < 1 → x < 2 → a.aget hp' y x = readSrcCell exSrcHeap exSrc y x) ∧
        (∀ p v hp'', p.block < exSrcHeap.nextId → writePtr hp' p v = some hp'' →
          ∀ y x, y < 1 → x < 2 → a.aget hp'' y x = a.aget hp' y x) ∧
        (∀ y x v hp'', a.aset hp' y x v = some hp'' →
          ∀ i j, i < 1 → j < 2 →
            readSrcCell hp'' exSrc i j = readSrcCell hp' exSrc i j)) ∧
     (0 &&& ARRAY2D_BYREFERENCE ≠ 0 →
      ∃ hp' a, array2D.mkFromSource exSrcHeap 2 1 exSrc 0 = some (hp', a) ∧
        a.data = none ∧
        (∀ y x, y < 1 → x < 2 → a.aget hp' y x = readSrcCell hp' exSrc y x) ∧
        (∀ y x p v hp'', y < 1 → x < 2 → exSrc[y]? = some p →
          writePtr hp' ⟨p.block, p.off + x⟩ v = some hp'' →
          a.aget hp'' y x = some v))) ∧
    ((ARRAY2D_BYREFERENCE &&& ARRAY2D_BYREFERENCE = 0 →
      ∃ hp' a, array2D.mkFromSource exSrcHeap 2 1 exSrc ARRAY2D_BYREFERENCE =
          some (hp', a) ∧
        (∀ y x, y < 1 → x < 2 → a.aget hp' y x = readSrcCell exSrcHeap exSrc y x) ∧
        (∀ p v hp'', p.block < exSrcHeap.nextId → writePtr hp' p v = some hp'' →
          ∀ y x, y < 1 → x < 2 → a.aget hp'' y x = a.aget hp' y x) ∧
        (∀ y x v hp'', a.aset hp' y x v = some hp'' →
          ∀ i j, i < 1 → j < 2 →
            readSrcCell hp'' exSrc i j = readSrcCell hp' exSrc i j)) ∧
     (ARRAY2D_BYREFERENCE &&& ARRAY2D_BYREFERENCE ≠ 0 →
      ∃ hp' a, array2D.mkFromSource exSrcHeap 2 1 exSrc ARRAY2D_BYREFERENCE =
          some (hp', a) ∧
        a.data = none ∧
        (∀ y x, y < 1 → x < 2 → a.aget hp' y x = readSrcCell hp' exSrc y x) ∧
        (∀ y x p v hp'', y < 1 → x < 2 → exSrc[y]? = some p →
          writePtr hp' ⟨p.block, p.off + x⟩ v = some hp'' →
          a.aget hp'' y x = some v))) :=
  ⟨C4_copy_vs_reference_semantics exSrcHeap_WF exSrc_valid 0,
   C4_copy_vs_reference_semantics exSrcHeap_WF exSrc_valid ARRAY2D_BYREFERENCE⟩

/-- Transfer the owning invariant along a heap change that preserves every
live block. -/
theorem OwnInv.preserve {hp hp' : Heap α} {a : array2D} {off : Nat} (hW : hp.WF)
    (hI : OwnInv hp a off)
    (hd : ∀ id, id < hp.nextId → hp'.dataMem id = hp.dataMem id)
    (hr : ∀ id, id < hp.nextId → hp'.rowMem id = hp.rowMem id) :
    OwnInv hp' a off := by
  obtain ⟨did, rid, rtab, buf, h1, h2, h3, h4, h5, h6, h7⟩ := hI
  exact ⟨did, rid, rtab, buf, h1, h2, by rw [hr rid (hW.live_rows h3)]; exact h3,
    by rw [hd did (hW.live_data h4)]; exact h4, h5, h6, h7⟩

@[simp] theorem multiConstruct_zero [Inhabited α] [Zero α] (hp : Heap α)
    (w h flags offset : Nat) : multiConstruct hp 0 w h flags offset = (hp, []) := rfl

theorem multiConstruct_succ [Inhabited α] [Zero α] (hp : Heap α)
    (n w h flags offset : Nat) :
    multiConstruct hp (n + 1) w h flags offset =
      ((array2D.resize (multiConstruct hp n w h flags offset).1 array2D.mkEmpty w h
          flags ((n + 1) * offset)).1,
        (multiConstruct hp n w h flags offset).2 ++
          [(array2D.resize (multiConstruct hp n w h flags offset).1 array2D.mkEmpty w h
            flags ((n + 1) * offset)).2]) := by
  unfold multiConstruct
  rw [List.range_succ, List.foldl_append]
  rfl

/-! ## Claim C8 -/

/-- C8: the `multi_array2D<T, num>` constructor resizes each of its `num`
default-constructed slots with `(width, height, flags, (i + 1) * offset)`:
slot `i` is exactly the instance produced by that resize invocation, has
shape `(w, h)`, satisfies the owning invariant with per-slot offset
`(i + 1) * offset`, and the slots own pairwise distinct data allocations. -/
theorem C8_multi_construct_slots [Inhabited α] [Zero α] {hp : Heap α} (hW : hp.WF)
    (num w h flags offset : Nat) :
    (multiConstruct hp num w h flags offset).2.length = num ∧
    (multiConstruct hp num w h flags offset).1.WF ∧
    (∀ i, i < num → ∃ ai,
      (multiConstruct hp num w h flags offset).2[i]? = some ai ∧
      ai.width = w ∧ ai.height = h ∧
      OwnInv (multiConstruct hp num w h flags offset).1 ai ((i + 1) * offset) ∧
      (∃ hpPrev : Heap α,
        ai = (array2D.resize hpPrev array2D.mkEmpty w h flags ((i + 1) * offset)).2)) ∧
    (∀ i j, i < num → j < num → i ≠ j →
      ∀ ai aj, (multiConstruct hp num w h flags offset).2[i]? = some ai →
        (multiConstruct hp num w h flags offset).2[j]? = some aj →
        ∀ di dj, ai.data = some di → aj.data = some dj → di ≠ dj) := by
  induction num with
  | zero =>
    exact ⟨rfl, hW, fun i hi => absurd hi (by omega),
      fun i j hi => absurd hi (by omega)⟩
  | succ n ih =>
    obtain ⟨hlen, hWacc, hslots, hdist⟩ := ih
    have hVmk : Valid (multiConstruct hp n w h flags offset).1 array2D.mkEmpty :=
      ⟨fun _ hc => Option.noConfusion hc, fun _ hc => Option.noConfusion hc⟩
    obtain ⟨hWnew, hwid, hhei, hOwnNew, hmono, ⟨didN, hdidN, hdidNge⟩, hdpres, hrpres⟩ :=
      resize_data_null_post hWacc hVmk rfl w h flags ((n + 1) * offset)
    have hrpres' := hrpres rfl
    rw [multiConstruct_succ]
    have hgetOld : ∀ i, i < n →
        ((multiConstruct hp n w h flags offset).2 ++
          [(array2D.resize (multiConstruct hp n w h flags offset).1 array2D.mkEmpty w h
            flags ((n + 1) * offset)).2])[i]? =
        (multiConstruct hp n w h flags offset).2[i]? := by
      intro i hi
      rw [List.getElem?_append, if_pos (by omega)]
    have hgetNew :
        ((multiConstruct hp n w h flags offset).2 ++
          [(array2D.resize (multiConstruct hp n w h flags offset).1 array2D.mkEmpty w h
            flags ((n + 1) * offset)).2])[n]? =
        some (array2D.resize (multiConstruct hp n w h flags offset).1 array2D.mkEmpty w h
          flags ((n + 1) * offset)).2 := by
      rw [List.getElem?_append, if_neg (by omega), hlen]
      simp
    refine ⟨by simp [hlen], hWnew, ?_, ?_⟩
    · intro i hi
      by_cases hin : i < n
      · obtain ⟨ai, hget, hw', hh', hOwn, hPrev⟩ := hslots i hin
        exact ⟨ai, by rw [hgetOld i hin]; exact hget, hw', hh',
          hOwn.preserve hWacc hdpres hrpres', hPrev⟩
      · have hieq : i = n := by omega
        subst hieq
        exact ⟨_, hgetNew, hwid, hhei, hOwnNew,
          ⟨(multiConstruct hp i w h flags offset).1, rfl⟩⟩
    · intro i j hi hj hne ai aj hgi hgj di dj hdi hdj
      have hbound : ∀ k (hk : k < n) (ak : array2D),
          ((multiConstruct hp n w h flags offset).2 ++
            [(array2D.resize (multiConstruct hp n w h flags offset).1 array2D.mkEmpty w h
              flags ((n + 1) * offset)).2])[k]? = some ak →
          ∀ dk, ak.data = some dk → dk < (multiConstruct hp n w h flags offset).1.nextId := by
        intro k hk ak hgk dk hdk
        rw [hgetOld k hk] at hgk
        obtain ⟨ak', hget', _, _, hOwn', _⟩ := hslots k hk
        have hak : ak' = ak := by rw [hget'] at hgk; exact Option.some.inj hgk
        subst hak
        obtain ⟨dd, rr, tt, bb, hdd, _, _, hbb, _, _, _⟩ := hOwn'
        have : dd = dk := by rw [hdd] at hdk; exact Option.some.inj hdk
        subst this
        exact hWacc.live_data hbb
      by_cases hin : i < n
      · by_cases hjn : j < n
        · obtain ⟨ai', hgi', _, _, _, _⟩ := hslots i hin
          obtain ⟨aj', hgj', _, _, _, _⟩ := hslots j hjn
          rw [hgetOld i hin] at hgi
          rw [hgetOld j hjn] at hgj
          exact hdist i j hin hjn hne ai aj hgi hgj di dj hdi hdj
        · have hjeq : j = n := by omega
          subst hjeq
          rw [hgetNew] at hgj
          have haj := Option.some.inj hgj
          have hdjN : dj = didN := by
            rw [← haj] at hdj
            rw [hdidN] at hdj
            exact (Option.some.inj hdj).symm
          have hdiB := hbound i hin ai hgi di hdi
          omega
      · have hieq : i = n := by omega
        subst hieq
        have hjn : j < i := by omega
        rw [hgetNew] at hgi
        have hai := Option.some.inj hgi
        have hdiN : di = didN := by
          rw [← hai] at hdi
          rw [hdidN] at hdi
          exact (Option.some.inj hdi).symm
        have hdjB := hbound j hjn aj hgj dj hdj
        omega

/-- C8 witness: the theorem applied to `multi_array2D<int, 3>(2, 1, 0, 1)`
built on the empty heap. -/
theorem C8_witness :
    (multiConstruct (α := Int) Heap.empty 3 2 1 0 1).2.length = 3 ∧
    (multiConstruct (α := Int) Heap.empty 3 2 1 0 1).1.WF ∧
    (∀ i, i < 3 → ∃ ai,
      (multiConstruct (α := Int) Heap.empty 3 2 1 0 1).2[i]? = some ai ∧
      ai.width = 2 ∧ ai.height = 1 ∧
      OwnInv (multiConstruct (α := Int) Heap.empty 3 2 1 0 1).1 ai ((i + 1) * 1) ∧
      (∃ hpPrev : Heap Int,
        ai = (array2D.resize hpPrev array2D.mkEmpty 2 1 0 ((i + 1) * 1)).2)) ∧
    (∀ i j, i < 3 → j < 3 → i ≠ j →
      ∀ ai aj, (multiConstruct (α := Int) Heap.empty 3 2 1 0 1).2[i]? = some ai →
        (multiConstruct (α := Int) Heap.empty 3 2 1 0 1).2[j]? = some aj →
        ∀ di dj, ai.data = some di → aj.data = some dj → di ≠ dj) :=
  C8_multi_construct_slots Heap.WF_empty 3 2 1 0 1
